import Mathlib

/-!
Verification of the GLSL shader-include preprocessor (`src/shader.cpp`,
`src/util.cpp` of sevanetrebchenko/glsl-include).

The development shallowly embeds the preprocessor:

* text utilities model the `std::stringstream`-based tokenization
  (`parser >> token`), `std::getline` line splitting and the file system
  (a finite association list from path to file content);
* `ecAux` / `EraseComments` and `enAux` / `EraseNewlines` transliterate the
  index-based erase loops `Shader::EraseComments` and `Shader::EraseNewlines`
  (identical code is duplicated in `util.cpp`); the loops index the string
  with `line[commentEnd]` while scanning, and a scan that would run past the
  end of the buffer (undefined behavior in C++) is modeled as `none`;
* `DispatchLine` is the per-line body of `Shader::ReadFile`'s parsing loop,
  `ReadFileLoop` is the loop itself and `ReadFile` the whole recursive
  function; recursion through `#include` is bounded by explicit fuel
  (the C++ recursion is unbounded and can only diverge on include cycles);
* `ValidateIncludeGuardScope` and `GetShaderSource` model the per-component
  validation loop of `Shader::GetShaderSources`.

Errors are modeled structurally (`PErr`): `ThrowFormattedError`'s arguments
are recorded as fields instead of being rendered to the final three-line
message, and the `"Included from: ..."` wrapping performed by the `catch`
blocks around recursive `ReadFile` calls is the `includedFrom` constructor.
Undefined behavior (reading `std::stack::top()` of an empty stack, indexing
past the end of a string) is modeled by dedicated error values.
-/

set_option maxRecDepth 8000

deriving instance DecidableEq for Except

namespace GLSL

/-- Whitespace test used by `std::istream` token extraction (`parser >> token`). -/
def isSpaceChar (c : Char) : Bool :=
  c == ' ' || c == '\t' || c == '\n' || c == '\r' || c == '\x0b' || c == '\x0c'

/-- Splits a character list into maximal whitespace-free tokens, in order;
models repeated `parser >> token` extraction from a `std::stringstream`. -/
def tokensAux : List Char → List Char → List (List Char)
  | [], cur => if cur.isEmpty then [] else [cur.reverse]
  | c :: rest, cur =>
    if isSpaceChar c then
      (if cur.isEmpty then tokensAux rest [] else cur.reverse :: tokensAux rest [])
    else tokensAux rest (c :: cur)

/-- First whitespace-delimited token of a character list; `[]` when the
extraction fails (the C++ target string is then left empty). -/
def firstTokL (cs : List Char) : List Char := (tokensAux cs []).headD []

/-- Second whitespace-delimited token of a character list. -/
def secondTokL (cs : List Char) : List Char := ((tokensAux cs []).drop 1).headD []

/-- First token of a line, as extracted by `parser >> token` in `Shader::ReadFile`. -/
def firstToken (s : String) : String := String.mk (firstTokL s.data)

/-- Second token of a line (the argument of a directive). -/
def secondToken (s : String) : String := String.mk (secondTokL s.data)

/-- Splits file content at newline characters.  This reproduces the
`while (!fileReader.eof()) { std::getline(...); ... }` loop of
`Shader::ReadFile`: content `"a\nb\n"` yields the processed lines
`"a"`, `"b"`, `""` and content `"a\nb"` yields `"a"`, `"b"`. -/
def splitLA : List Char → List (List Char)
  | [] => [[]]
  | c :: rest =>
    if c = '\n' then [] :: splitLA rest
    else match splitLA rest with
         | [] => [[c]]
         | h :: t => (c :: h) :: t

/-- Raw lines of a source file, as read by the `getline` loop. -/
def splitLines (s : String) : List String := (splitLA s.data).map (fun cs => String.mk cs)

/-- The file system visible to the preprocessor: a finite map from file path
to file content.  `none` models `fileReader.is_open()` being false. -/
def lookupFS : List (String × String) → String → Option String
  | [], _ => none
  | (p, content) :: rest, path => if p = path then some content else lookupFS rest path

/-- Membership in a tracked name set (`std::set<std::string>::find`). -/
def memStr : List String → String → Bool
  | [], _ => false
  | x :: rest, s => if x = s then true else memStr rest s

/-- Scan of `Shader::EraseComments`'s full-line branch:
`while (line[commentEnd] != '\n') ++commentEnd;` starting at index `i`.
Returns the index of the first newline at or after `i`, or `none` when the
scan leaves the string (reading `line[size()+1]` and beyond is undefined
behavior in the C++). -/
def findNl (l : List Char) (i : Nat) :
    Option {e : Nat // i ≤ e ∧ e < l.length ∧ l.get? e = some '\n'} :=
  if h : i < l.length then
    if hc : l.get? i = some '\n' then some ⟨i, le_refl i, h, hc⟩
    else
      match findNl l (i+1) with
      | none => none
      | some ⟨e, he⟩ => some ⟨e, by omega, he.2⟩
  else none
termination_by l.length - i

/-- Scan of `Shader::EraseComments`'s block-comment branch:
`while (line[commentEnd] != '/' || line[commentEnd-1] != '*') ++commentEnd;`
starting at index `i`.  Returns the index of the closing slash of the first
`*/` at or after `i`, or `none` when the scan leaves the string (undefined
behavior in the C++). -/
def findStarSlash (l : List Char) (i : Nat) :
    Option {j : Nat // i ≤ j ∧ j < l.length ∧ l.get? j = some '/' ∧ l.get? (j-1) = some '*'} :=
  if h : i < l.length then
    if hc : l.get? i = some '/' ∧ l.get? (i-1) = some '*' then some ⟨i, le_refl i, h, hc.1, hc.2⟩
    else
      match findStarSlash l (i+1) with
      | none => none
      | some ⟨j, hj⟩ => some ⟨j, by omega, hj.2⟩
  else none
termination_by l.length - i

/-- The body of `Shader::EraseComments`: an index `pos`
(`previousItPosition`) and a flag `prevSlash` (`previousIsSlash`) walk the
buffer; `//` erases from the first slash up to (excluding) the next newline
and breaks back to the outer loop; `/*` erases through the closing `*/`
without a break, so the following character is skipped and `previousIsSlash`
keeps its (true) value — both quirks of the source are reproduced.
`none` models the erase-scan running past the end of the buffer. -/
def ecAux (l : List Char) (pos : Nat) (prevSlash : Bool) : Option (List Char) :=
  if h : pos < l.length then
    if hslash : l.get? pos = some '/' then
      if prevSlash then
        match findNl l pos with
        | none => none
        | some ⟨e, _⟩ => ecAux (l.take (pos-1) ++ l.drop e) (pos-1) false
      else ecAux l (pos+1) true
    else if hstar : l.get? pos = some '*' then
      if prevSlash then
        match findStarSlash l pos with
        | none => none
        | some ⟨j, _⟩ => ecAux (l.take (pos-1) ++ l.drop (j+1)) pos prevSlash
      else ecAux l (pos+1) prevSlash
    else ecAux l (pos+1) false
  else some l
termination_by (l.length, l.length - pos)
decreasing_by
  · rename_i he
    obtain ⟨h1, h2, h3⟩ := he
    apply Prod.Lex.left
    have hne : ¬(e = pos) := by
      intro hep
      subst hep
      rw [hslash] at h3
      simp at h3
    simp [List.length_take, List.length_drop]
    omega
  · apply Prod.Lex.right; omega
  · rename_i he
    obtain ⟨h1, h2, -, -⟩ := he
    apply Prod.Lex.left
    simp [List.length_take, List.length_drop]
    omega
  · apply Prod.Lex.right; omega
  · apply Prod.Lex.right; omega

/-- `Shader::EraseComments` on a whole line.  The first branch is a fast path
for lines containing neither `'/'` nor `'*'`; `ecAux_clean` proves it agrees
with the loop, and `EraseComments_eq_loop` states the equation.  The fast
path makes the model executable by the kernel on comment-free lines. -/
def EraseComments (s : String) : Option String :=
  if s.data.all (fun c => !(c == '/') && !(c == '*')) then some s
  else (ecAux s.data 0 false).map (fun l => String.mk l)

/-- `Shader::GetLine`: reads one line, appends the newline `getline`
consumed, and strips comments. -/
def GetLine (raw : String) : Option String := EraseComments (String.mk (raw.data ++ ['\n']))

/-- The body of `Shader::EraseNewlines`'s loop.  `atOuter` is true when
control is at the head of the outer `while`, where a leading newline is
erased (`line.erase(line.begin()); continue;`); the inner `for` advances
`pos` and erases the current character when two consecutive newlines are
seen, then breaks back to the outer loop with `previousIsNL` left true. -/
def enAux (atOuter : Bool) (l : List Char) (pos : Nat) (prevNL : Bool) : List Char :=
  if h : pos < l.length then
    if atOuter ∧ l.head? = some '\n' then enAux true (l.drop 1) pos prevNL
    else if l.get ⟨pos, h⟩ = '\n' then
      if prevNL then enAux true (l.take pos ++ l.drop (pos+1)) pos prevNL
      else enAux false l (pos+1) true
    else enAux false l (pos+1) false
  else l
termination_by (l.length, l.length - pos)
decreasing_by
  · apply Prod.Lex.left; simp; omega
  · apply Prod.Lex.left; simp [List.length_take, List.length_drop]; omega
  · apply Prod.Lex.right; omega
  · apply Prod.Lex.right; omega

/-- The newline-collapsing loop of `Shader::EraseNewlines` (everything
before the `eraseLast` check). -/
def EraseNewlinesCore (s : String) : String := String.mk (enAux true s.data 0 false)

/-- `Shader::EraseNewlines`.  When `eraseLast` is set the C++ reads
`line.back()`, which is undefined behavior on an empty string; that case is
modeled as `none`. -/
def EraseNewlines (s : String) (eraseLast : Bool) : Option String :=
  if eraseLast then
    match (EraseNewlinesCore s).data.getLast? with
    | none => none
    | some c =>
      if c = '\n' then some (String.mk (EraseNewlinesCore s).data.dropLast)
      else some (EraseNewlinesCore s)
  else some (EraseNewlinesCore s)

/-- Reference recursion used to characterize the newline-collapsing loop:
keeps the first newline of every run when the carry is false, drops
newlines while the carry is true. -/
def collapseNL : List Char → Bool → List Char
  | [], _ => []
  | c :: r, prevNL =>
    if c = '\n' then
      (if prevNL then collapseNL r true else '\n' :: collapseNL r true)
    else c :: collapseNL r false

/-- One `Shader::IncludeGuard` record. -/
structure IncludeGuard where
  _includeGuardFile : String
  _includeGuardName : String
  _includeGuardLine : String
  _includeGuardLineNumber : Int
  _defineLineNumber : Int
  _endifLineNumber : Int
deriving DecidableEq, Repr

/-- `Shader::ParsedShaderData`: the parse-session state shared across the
whole recursive inclusion tree. -/
structure ParsedShaderData where
  _includeGuards : List IncludeGuard
  _includeGuardInstances : List String
  _pragmaInstances : List String
  _pragmaStack : List (String × Nat)
  _hasVersionInformation : Bool
  _processingExistingInclude : Bool
deriving DecidableEq, Repr

/-- Session state as set up by the `Shader` constructor / `ParsedShaderData::Clear`. -/
def initialParseData : ParsedShaderData := ⟨[], [], [], [], false, false⟩

/-- Structural model of the errors `Shader::ReadFile` can raise. -/
inductive PErr where
  /-- `"Could not open shader file: ..."` (plain `std::runtime_error`). -/
  | cantOpen (path : String)
  /-- A `ThrowFormattedError(filename, line, lineNumberString, message,
  locationOffset)` call, with its arguments recorded structurally. -/
  | formatted (filename line lineNumberString message : String) (locationOffset : Nat)
  /-- The `"Included from: '<file>', line number: <n>"` wrapping added by the
  catch blocks around a recursive `ReadFile` call. -/
  | includedFrom (inner : PErr) (file : String) (lineNumber : Nat)
  /-- Undefined behavior: `_pragmaStack.top()` on an empty `std::stack`
  (end-of-file handler of `ReadFile`). -/
  | pragmaStackEmpty (file : String)
  /-- Undefined behavior: a comment scan of `EraseComments` ran past the end
  of the line buffer. -/
  | commentOutOfBounds (file : String) (lineNumber : Nat)
  /-- Fuel exhaustion of the model (the C++ recursion is unbounded). -/
  | outOfFuel
deriving DecidableEq, Repr

/-- Effect of one parsed line on the surrounding loop: text appended to the
output stream `file`, nothing, a formatted error, or a recursive inclusion
of a resolved path. -/
inductive Action where
  | emit (text : String)
  | nothing
  | err (e : PErr)
  | includeAt (location : String)
deriving DecidableEq, Repr

/-- The `#endif` search of `Shader::ReadFile`: walk `_includeGuards` from
the back (`rbegin` to `rend`) and set `_endifLineNumber` of the first guard
whose `_endifLineNumber` is still `-1`; `none` when no such guard exists. -/
def setEndifFromBack : List IncludeGuard → Nat → Option (List IncludeGuard)
  | [], _ => none
  | g :: rest, n =>
    match setEndifFromBack rest n with
    | some rest2 => some (g :: rest2)
    | none =>
      if g._endifLineNumber = -1 then some ({g with _endifLineNumber := (n : Int)} :: rest)
      else none

/-- Per-line dispatch of `Shader::ReadFile` (the body of its
`while (!fileReader.eof())` loop), transliterated branch by branch.
`includeDirectory` is the compile-time `INCLUDE_DIRECTORY` macro, `filePath`
the file being parsed, `line` the current comment-stripped line (with its
trailing newline), `n` the 1-based line number. -/
def DispatchLine (includeDirectory filePath line : String) (n : Nat)
    (st : ParsedShaderData) : ParsedShaderData × Action :=
  let token := firstToken line
  if token = "#pragma" then
    let once := secondToken line
    if once = "" ∨ once ≠ "once" then
      (st, .err (.formatted filePath line (toString n)
        "#pragma pre-processing directive must be followed by \x27once\x27." 8))
    else if memStr st._pragmaInstances filePath then
      ({st with _processingExistingInclude := true}, .nothing)
    else
      let insts := st._pragmaInstances ++ [filePath]
      let stack := (filePath, n) :: st._pragmaStack
      ({st with _pragmaInstances := insts, _pragmaStack := stack}, .nothing)
  else if token = "#ifndef" then
    let includeGuardName := secondToken line
    if includeGuardName = "" then
      (st, .err (.formatted filePath line (toString n)
        "Empty #ifndef pre-processor directive. Expected macro name." 8))
    else if memStr st._includeGuardInstances includeGuardName then
      (if st._includeGuards.any
          (fun g => decide (g._includeGuardName = includeGuardName ∧ g._defineLineNumber ≠ -1)) then
        ({st with _processingExistingInclude := true}, .nothing)
      else (st, .nothing))
    else
      let g : IncludeGuard := ⟨filePath, includeGuardName, line, (n : Int), -1, -1⟩
      let gs := st._includeGuards ++ [g]
      let names := st._includeGuardInstances ++ [includeGuardName]
      ({st with _includeGuards := gs, _includeGuardInstances := names}, .nothing)
  else if token = "#define" then
    if st._processingExistingInclude then (st, .nothing)
    else
      let defineName := secondToken line
      if defineName = "" then
        (st, .err (.formatted filePath line (toString n)
          "Empty #define pre-processor directive. Expected identifier." 8))
      else if memStr st._includeGuardInstances defineName then
        let gs := st._includeGuards.map
          (fun g => if g._includeGuardName = defineName then
                      {g with _defineLineNumber := (n : Int)} else g)
        ({st with _includeGuards := gs}, .nothing)
      else if st._hasVersionInformation then
        (st, .emit ("#define" ++ " " ++ defineName ++ "\n"))
      else
        (st, .err (.formatted filePath line (toString n)
          "Version directive must be first statement and may not be repeated." 0))
  else if token = "#endif" then
    if st._processingExistingInclude then
      ({st with _processingExistingInclude := false}, .nothing)
    else
      match setEndifFromBack st._includeGuards n with
      | some gs => ({st with _includeGuards := gs}, .nothing)
      | none =>
        (st, .err (.formatted filePath line (toString n)
          "#endif pre-processor directive without preexisting #if / #ifndef directive." 0))
  else if token = "#version" then
    if st._hasVersionInformation then (st, .nothing)
    else ({st with _hasVersionInformation := true}, .emit (line ++ "\n"))
  else if token = "#include" then
    if st._processingExistingInclude then (st, .nothing)
    else
      let includeName := secondToken line
      match includeName.data with
      | [] =>
        (st, .err (.formatted filePath line (toString n)
          "Empty #include pre-processor directive. Expected <filename> or \"filename\"." 9))
      | c :: cs =>
        let beginning := c
        let ending := (c :: cs).getLast (List.cons_ne_nil c cs)
        let filename := String.mk (cs.dropLast)
        if beginning = '<' ∧ ending = '>' then
          (st, .includeAt (includeDirectory ++ filename))
        else if beginning = '"' ∧ ending = '"' then
          (st, .includeAt filename)
        else
          (st, .err (.formatted filePath line (toString n)
            "Formatting mismatch. Expected <filename> or \"filename\x27." 9))
  else
    if st._processingExistingInclude = false ∧ st._hasVersionInformation then
      (st, .emit (line ++ "\n"))
    else (st, .nothing)

/-- The line loop of `Shader::ReadFile` over the remaining raw lines.
`recur` performs the recursive `ReadFile` call of the `#include` branch;
its errors are wrapped with the `"Included from"` context of the current
file and line.  The empty case is the end-of-file handler: when
`_processingExistingInclude` was left true by a pragma match, the top of
`_pragmaStack` is inspected (undefined behavior when the stack is empty)
and popped when it names this file. -/
def ReadFileLoop (includeDirectory : String) (fs : List (String × String))
    (recur : String → ParsedShaderData → Except PErr (ParsedShaderData × String))
    (filePath : String) :
    List String → Nat → ParsedShaderData → Except PErr (ParsedShaderData × String)
  | [], _, st =>
    if st._processingExistingInclude then
      match st._pragmaStack with
      | [] => .error (.pragmaStackEmpty filePath)
      | (pragmaFile, _) :: rest =>
        if pragmaFile = filePath then
          .ok ({st with _processingExistingInclude := false, _pragmaStack := rest}, "")
        else .ok (st, "")
    else .ok (st, "")
  | raw :: restLines, n, st =>
    match GetLine raw with
    | none => .error (.commentOutOfBounds filePath n)
    | some line =>
      match DispatchLine includeDirectory filePath line n st with
      | (_, .err e) => .error e
      | (st2, .nothing) => ReadFileLoop includeDirectory fs recur filePath restLines (n+1) st2
      | (st2, .emit t) =>
        match ReadFileLoop includeDirectory fs recur filePath restLines (n+1) st2 with
        | .error e => .error e
        | .ok (st3, s) => .ok (st3, t ++ s)
      | (st2, .includeAt loc) =>
        match recur loc st2 with
        | .error e => .error (.includedFrom e filePath n)
        | .ok (st3, sub) =>
          match ReadFileLoop includeDirectory fs recur filePath restLines (n+1) st3 with
          | .error e => .error e
          | .ok (st4, s) => .ok (st4, sub ++ s)

/-- `Shader::ReadFile`: opens `filePath`, processes its lines, returns the
final session state and the text written to the output stream `file`.
`fuel` bounds the depth of `#include` recursion (unbounded in the C++). -/
def ReadFile (includeDirectory : String) (fs : List (String × String)) :
    Nat → ParsedShaderData → String → Except PErr (ParsedShaderData × String)
  | 0, _, _ => .error .outOfFuel
  | fuel+1, st, filePath =>
    match lookupFS fs filePath with
    | none => .error (.cantOpen filePath)
    | some content =>
      ReadFileLoop includeDirectory fs
        (fun loc st2 => ReadFile includeDirectory fs fuel st2 loc)
        filePath (splitLines content) 1 st

/-- The end-of-session validation loop of `Shader::GetShaderSources`: the
first `IncludeGuard` whose `_endifLineNumber` is still `-1` is reported
via `ThrowFormattedError`, with file, source line and line number taken
from the guard's own record. -/
def ValidateIncludeGuardScope : List IncludeGuard → Except PErr Unit
  | [] => .ok ()
  | g :: rest =>
    if g._endifLineNumber = -1 then
      .error (.formatted g._includeGuardFile g._includeGuardLine
        (toString g._includeGuardLineNumber) "Unterminated #ifndef directive." 0)
    else ValidateIncludeGuardScope rest

/-- Processing of one shader component in `Shader::GetShaderSources`:
parse the unit from a fresh session, collapse newlines keeping the final
one (`EraseNewlines(shaderFile, false)`), then run the unterminated-guard
validation loop. -/
def GetShaderSource (includeDirectory : String) (fs : List (String × String))
    (fuel : Nat) (filePath : String) : Except PErr String :=
  match ReadFile includeDirectory fs fuel initialParseData filePath with
  | .error e => .error e
  | .ok (st, text) =>
    let flat := EraseNewlinesCore text
    match ValidateIncludeGuardScope st._includeGuards with
    | .error e => .error e
    | .ok _ => .ok flat

/-- Modelled from the spec: resolution of an angle-bracketed include target
by scanning the caller-registered include-search directories (appended by
`AddIncludeDirectory`, which `shader.h` declares but whose list the
implemented `Shader::ReadFile` never consults) in registration order and
taking the first directory containing a file of that name.  Used only to
compare the specified resolution against the implemented one. -/
def resolveAngleFromSpec (dirs : List String) (fs : List (String × String))
    (name : String) : Option String :=
  match dirs with
  | [] => none
  | d :: rest =>
    if (lookupFS fs (d ++ name)).isSome then some (d ++ name)
    else resolveAngleFromSpec rest fs name

/-- Number of lines of a flattened output whose first token is `#version`. -/
def vcountL : List (List Char) → Nat
  | [] => 0
  | ls :: rest => (if firstTokL ls = "#version".data then 1 else 0) + vcountL rest

/-- Number of `#version` lines appearing in a flattened output string. -/
def vcount (s : String) : Nat := vcountL (splitLA s.data)

/-- A flattened-output chunk is empty or ends with a newline. -/
def endsNL (s : String) : Prop := s.data = [] ∨ s.data.getLast? = some '\n'

/-- No two adjacent newline characters. -/
def noNN : List Char → Prop
  | [] => True
  | [_] => True
  | a :: b :: t => ¬(a = '\n' ∧ b = '\n') ∧ noNN (b :: t)

/-- The six directive tokens recognized by `Shader::ReadFile`'s dispatch. -/
def directiveTokens : List String :=
  ["#pragma", "#ifndef", "#define", "#endif", "#version", "#include"]

/-! ## General lemmas about the per-line dispatch -/

/-- The `#define` branch with a non-guard name and an accepted version
directive emits the token and the name only. -/
theorem dispatch_define_emit (incDir fp line : String) (n : Nat) (st : ParsedShaderData)
    (hskip : st._processingExistingInclude = false)
    (htok : firstToken line = "#define")
    (hname : secondToken line ≠ "")
    (hmem : memStr st._includeGuardInstances (secondToken line) = false)
    (hv : st._hasVersionInformation = true) :
    DispatchLine incDir fp line n st =
      (st, .emit ("#define" ++ " " ++ secondToken line ++ "\n")) := by
  unfold DispatchLine
  rw [htok]
  simp +decide [hskip, hname, hmem, hv]

/-- The `#define` branch with a non-guard name and no accepted version
directive raises the ordering error. -/
theorem dispatch_define_order_error (incDir fp line : String) (n : Nat) (st : ParsedShaderData)
    (hskip : st._processingExistingInclude = false)
    (htok : firstToken line = "#define")
    (hname : secondToken line ≠ "")
    (hmem : memStr st._includeGuardInstances (secondToken line) = false)
    (hv : st._hasVersionInformation = false) :
    DispatchLine incDir fp line n st = (st, .err (.formatted fp line (toString n)
      "Version directive must be first statement and may not be repeated." 0)) := by
  unfold DispatchLine
  rw [htok]
  simp +decide [hskip, hname, hmem, hv]

/-- An `#ifndef` whose name is tracked but has no recorded definition is a
no-op: state unchanged, nothing emitted, no error. -/
theorem dispatch_ifndef_noop (incDir fp line : String) (n : Nat) (st : ParsedShaderData)
    (htok : firstToken line = "#ifndef")
    (hname : secondToken line ≠ "")
    (hmem : memStr st._includeGuardInstances (secondToken line) = true)
    (hdef : ∀ g ∈ st._includeGuards,
      ¬(g._includeGuardName = secondToken line ∧ g._defineLineNumber ≠ -1)) :
    DispatchLine incDir fp line n st = (st, .nothing) := by
  unfold DispatchLine
  rw [htok]
  simp +decide [hname, hmem]
  exact fun x hx h1 h2 => absurd ⟨h1, h2⟩ (hdef x hx)

/-- An `#ifndef` whose name is tracked and has a recorded definition sets
the skipping flag. -/
theorem dispatch_ifndef_skip (incDir fp line : String) (n : Nat) (st : ParsedShaderData)
    (htok : firstToken line = "#ifndef")
    (hname : secondToken line ≠ "")
    (hmem : memStr st._includeGuardInstances (secondToken line) = true)
    (g : IncludeGuard) (hg : g ∈ st._includeGuards)
    (hgname : g._includeGuardName = secondToken line) (hgdef : g._defineLineNumber ≠ -1) :
    DispatchLine incDir fp line n st =
      ({st with _processingExistingInclude := true}, .nothing) := by
  unfold DispatchLine
  rw [htok]
  simp +decide [hname, hmem]
  intro hall
  exact absurd (hall g hg hgname) hgdef

/-- A `#version` line while a version directive has already been accepted
is silently dropped: state unchanged, nothing emitted, no error. -/
theorem dispatch_version_drop (incDir fp line : String) (n : Nat) (st : ParsedShaderData)
    (htok : firstToken line = "#version")
    (hv : st._hasVersionInformation = true) :
    DispatchLine incDir fp line n st = (st, .nothing) := by
  unfold DispatchLine
  rw [htok]
  simp +decide [hv]

/-- The first `#version` line is emitted verbatim (the line itself, plus the
`std::endl` the stream insertion appends) and the acceptance flag is set. -/
theorem dispatch_version_emit (incDir fp line : String) (n : Nat) (st : ParsedShaderData)
    (htok : firstToken line = "#version")
    (hv : st._hasVersionInformation = false) :
    DispatchLine incDir fp line n st =
      ({st with _hasVersionInformation := true}, .emit (line ++ "\n")) := by
  unfold DispatchLine
  rw [htok]
  simp +decide [hv]

/-- An `#endif` while the skipping flag is set clears the flag and changes
nothing else — in particular every `IncludeGuard` record is unchanged. -/
theorem dispatch_endif_skipping (incDir fp line : String) (n : Nat) (st : ParsedShaderData)
    (htok : firstToken line = "#endif")
    (hskip : st._processingExistingInclude = true) :
    DispatchLine incDir fp line n st =
      ({st with _processingExistingInclude := false}, .nothing) := by
  unfold DispatchLine
  rw [htok]
  simp +decide [hskip]

/-- An `#endif` while not skipping updates the guard list according to
`setEndifFromBack`, or raises the structural-mismatch error when every
guard is already closed. -/
theorem dispatch_endif_not_skipping (incDir fp line : String) (n : Nat) (st : ParsedShaderData)
    (htok : firstToken line = "#endif")
    (hskip : st._processingExistingInclude = false) :
    DispatchLine incDir fp line n st =
      (match setEndifFromBack st._includeGuards n with
       | some gs => ({st with _includeGuards := gs}, .nothing)
       | none => (st, .err (.formatted fp line (toString n)
           "#endif pre-processor directive without preexisting #if / #ifndef directive." 0))) := by
  unfold DispatchLine
  rw [htok]
  simp +decide [hskip]

/-- The angle-bracket `#include` branch: the resolved location is the fixed
include directory prepended to the bracketed name. -/
theorem dispatch_include_angle (incDir fp line : String) (n : Nat) (st : ParsedShaderData)
    (hskip : st._processingExistingInclude = false)
    (htok : firstToken line = "#include")
    (c : Char) (cs : List Char) (hsec : (secondToken line).data = c :: cs)
    (hb : c = '<') (he : (c :: cs).getLast (List.cons_ne_nil c cs) = '>') :
    DispatchLine incDir fp line n st =
      (st, .includeAt (incDir ++ String.mk cs.dropLast)) := by
  subst hb
  unfold DispatchLine
  rw [htok]
  simp +decide [hskip, hsec]
  exact he

/-- An `#include` line whose dispatch resolved a location inlines the
recursive parse's flattened output at this position in the loop's output. -/
theorem loop_include_inlines (incDir : String) (fs : List (String × String))
    (recur : String → ParsedShaderData → Except PErr (ParsedShaderData × String))
    (fp raw line loc : String) (rest : List String) (n : Nat)
    (st st2 st3 : ParsedShaderData) (sub : String)
    (hline : GetLine raw = some line)
    (hdisp : DispatchLine incDir fp line n st = (st2, .includeAt loc))
    (hrec : recur loc st2 = .ok (st3, sub)) :
    ReadFileLoop incDir fs recur fp (raw :: rest) n st =
      (match ReadFileLoop incDir fs recur fp rest (n+1) st3 with
       | .error e => .error e
       | .ok (st4, s) => .ok (st4, sub ++ s)) := by
  conv_lhs => rw [ReadFileLoop]
  rw [hline]
  dsimp only
  rw [hdisp]
  dsimp only
  rw [hrec]

/-- The backwards `#endif` search fails exactly when every guard is closed. -/
theorem setEndifFromBack_none_iff (gs : List IncludeGuard) (n : Nat) :
    setEndifFromBack gs n = none ↔ ∀ g ∈ gs, g._endifLineNumber ≠ -1 := by
  induction gs with
  | nil => simp [setEndifFromBack]
  | cons g rest ih =>
    unfold setEndifFromBack
    constructor
    · intro h
      match hr : setEndifFromBack rest n with
      | some rest2 => rw [hr] at h; simp at h
      | none =>
        rw [hr] at h
        by_cases hg : g._endifLineNumber = -1
        · simp [hg] at h
        · intro x hx
          rcases List.mem_cons.mp hx with hx | hx
          · subst hx; exact hg
          · exact (ih.mp hr) x hx
    · intro h
      have hg : g._endifLineNumber ≠ -1 := h g (List.mem_cons_self g rest)
      have hrest : setEndifFromBack rest n = none :=
        ih.mpr (fun x hx => h x (List.mem_cons_of_mem g hx))
      rw [hrest]
      simp [hg]

/-- The backwards `#endif` search sets the closing line of the most
recently appended guard whose closing line is unset, leaving every other
record unchanged. -/
theorem setEndifFromBack_set (gs : List IncludeGuard) (n : Nat) (k : Nat)
    (hk : k < gs.length)
    (hopen : (gs.get ⟨k, hk⟩)._endifLineNumber = -1)
    (hlast : ∀ j (hj : j < gs.length), k < j → (gs.get ⟨j, hj⟩)._endifLineNumber ≠ -1) :
    setEndifFromBack gs n =
      some (gs.set k {gs.get ⟨k, hk⟩ with _endifLineNumber := (n : Int)}) := by
  induction gs generalizing k with
  | nil => exact absurd hk (by simp)
  | cons g rest ih =>
    unfold setEndifFromBack
    match k with
    | 0 =>
      have hrest : setEndifFromBack rest n = none := by
        rw [setEndifFromBack_none_iff]
        intro x hx
        obtain ⟨j, hxj⟩ := List.mem_iff_get.mp hx
        have h2 := hlast (j.val+1) (by simp) (by omega)
        rw [← hxj]
        simpa using h2
      rw [hrest]
      simp at hopen
      simp [hopen]
    | k'+1 =>
      have hk' : k' < rest.length := by simpa using Nat.lt_of_succ_lt_succ (by simpa using hk)
      have hrest : setEndifFromBack rest n =
          some (rest.set k' {rest.get ⟨k', hk'⟩ with _endifLineNumber := (n : Int)}) := by
        apply ih
        · simpa using hopen
        · intro j hj hjk
          have h2 := hlast (j+1) (by simpa using Nat.succ_lt_succ hj) (by omega)
          simpa using h2
      rw [hrest]
      simp

/-! ## Characterization of the newline-collapsing loop -/

theorem enAux_step_front (l : List Char) (pos : Nat) (prevNL : Bool)
    (hp : pos < l.length) (hhd : l.head? = some '\n') :
    enAux true l pos prevNL = enAux true (l.drop 1) pos prevNL := by
  rw [enAux]
  rw [dif_pos hp, if_pos ⟨rfl, hhd⟩]

theorem enAux_step_dup (atOuter : Bool) (l : List Char) (pos : Nat)
    (hp : pos < l.length) (hfneg : ¬(atOuter = true ∧ l.head? = some '\n'))
    (hget : l.get ⟨pos, hp⟩ = '\n') :
    enAux atOuter l pos true = enAux true (l.take pos ++ l.drop (pos+1)) pos true := by
  rw [enAux]
  rw [dif_pos hp, if_neg hfneg, if_pos hget, if_pos rfl]

theorem enAux_step_nl (atOuter : Bool) (l : List Char) (pos : Nat)
    (hp : pos < l.length) (hfneg : ¬(atOuter = true ∧ l.head? = some '\n'))
    (hget : l.get ⟨pos, hp⟩ = '\n') :
    enAux atOuter l pos false = enAux false l (pos+1) true := by
  rw [enAux]
  rw [dif_pos hp, if_neg hfneg, if_pos hget, if_neg (by simp : ¬(false = true))]

theorem enAux_step_adv (atOuter : Bool) (l : List Char) (pos : Nat) (prevNL : Bool)
    (hp : pos < l.length) (hfneg : ¬(atOuter = true ∧ l.head? = some '\n'))
    (hget : ¬(l.get ⟨pos, hp⟩ = '\n')) :
    enAux atOuter l pos prevNL = enAux false l (pos+1) false := by
  rw [enAux]
  rw [dif_pos hp, if_neg hfneg, if_neg hget]

theorem enAux_exit (atOuter : Bool) (l : List Char) (pos : Nat) (prevNL : Bool)
    (hp : ¬(pos < l.length)) :
    enAux atOuter l pos prevNL = l := by
  rw [enAux]
  rw [dif_neg hp]

theorem head?_take_pos (l : List Char) (pos : Nat) (hp : 0 < pos) :
    (l.take pos).head? = l.head? := by
  cases l with
  | nil => simp
  | cons c t =>
    match pos, hp with
    | p+1, _ => simp

theorem enAux_spec (atOuter : Bool) (l : List Char) (pos : Nat) (prevNL : Bool)
    (hpos : pos ≤ l.length)
    (hhead : ¬(atOuter = true ∧ pos = 0) → l.head? ≠ some '\n') :
    enAux atOuter l pos prevNL =
      l.take pos ++ collapseNL
        (if atOuter = true ∧ pos = 0 then (l.drop pos).dropWhile (fun c => decide (c = '\n'))
         else l.drop pos) prevNL := by
  induction atOuter, l, pos, prevNL using enAux.induct with
  | case1 atOuter l pos prevNL h hfr ih =>
    -- front-erase: atOuter = true, head = '\n'; forces pos = 0
    obtain ⟨hat, hhd⟩ := hfr
    have hp0 : pos = 0 := by
      by_contra hne
      exact (hhead (fun hc => hne hc.2)) hhd
    subst hp0
    subst hat
    rw [enAux_step_front l 0 prevNL h hhd]
    rw [ih (by simp) (fun hc => absurd ⟨rfl, rfl⟩ hc)]
    obtain ⟨c, ls, rfl⟩ : ∃ c ls, l = c :: ls := by
      cases l with
      | nil => simp at h
      | cons c ls => exact ⟨c, ls, rfl⟩
    have hc : c = '\n' := by simpa using hhd
    subst hc
    simp [List.dropWhile]
  | case2 atOuter l pos hlt hfneg hget ih =>
    -- duplicate-newline erase; prevNL = true; forces pos ≥ 1
    have hp1 : 0 < pos := by
      rcases Nat.eq_zero_or_pos pos with hp0 | hp1
      · exfalso
        subst hp0
        have hhd : l.head? = some '\n' := by
          cases l with
          | nil => simp at hlt
          | cons c ls => simpa using hget
        cases hat : atOuter with
        | true => exact hfneg ⟨hat, hhd⟩
        | false => exact (hhead (by simp [hat])) hhd
      · exact hp1
    have hne : ¬(atOuter = true ∧ pos = 0) := fun hc => by omega
    have hhd : l.head? ≠ some '\n' := hhead hne
    have hlentake : (List.take pos l).length = pos := by simp; omega
    rw [enAux_step_dup atOuter l pos hlt hfneg hget]
    rw [ih ?hpos2 ?hd]
    case hpos2 =>
      simp [List.length_take, List.length_drop]
      omega
    case hd =>
      intro hc2
      rw [List.head?_append, head?_take_pos l pos hp1]
      intro hcontra
      rcases Option.or_eq_some.mp hcontra with hx | ⟨hx1, hx2⟩
      · exact hhd hx
      · cases l with
        | nil => simp at hlt
        | cons c ls => simp [head?_take_pos _ _ hp1] at hx1
    rw [List.take_left' hlentake, List.drop_left' hlentake]
    rw [if_neg (by simp; omega : ¬(true = true ∧ pos = 0))]
    rw [if_neg hne]
    have hgete : l[pos] = '\n' := by simpa [List.get_eq_getElem] using hget
    have hdrop : List.drop pos l = '\n' :: List.drop (pos+1) l := by
      rw [List.drop_eq_getElem_cons hlt, hgete]
    rw [hdrop]
    simp [collapseNL]
  | case3 atOuter l pos prevNL h hfr hnl hprev ih =>
    -- advance on '\n' with prevNL = false; forces pos ≥ 1 and head ≠ '\n'
    have hp1 : 0 < pos := by
      rcases Nat.eq_zero_or_pos pos with hp0 | hp1
      · exfalso
        subst hp0
        have hhd : l.head? = some '\n' := by
          cases l with
          | nil => simp at h
          | cons c ls => simpa using hnl
        cases hat : atOuter with
        | true => exact hfr ⟨hat, hhd⟩
        | false => exact (hhead (by simp [hat])) hhd
      · exact hp1
    have hhd : l.head? ≠ some '\n' := hhead (fun hc => by omega)
    have hpf : prevNL = false := by simpa using hprev
    subst hpf
    rw [enAux_step_nl atOuter l pos h hfr hnl]
    rw [ih (by omega) (fun _ => hhd)]
    rw [if_neg (by simp : ¬(false = true ∧ pos + 1 = 0))]
    rw [if_neg (fun hc => by omega : ¬(atOuter = true ∧ pos = 0))]
    have hgete : l[pos] = '\n' := by simpa [List.get_eq_getElem] using hnl
    have hdrop : List.drop pos l = '\n' :: List.drop (pos+1) l := by
      rw [List.drop_eq_getElem_cons h, hgete]
    have htake : List.take (pos+1) l = List.take pos l ++ ['\n'] := by
      rw [List.take_succ, List.getElem?_eq_getElem h, hgete]
      rfl
    rw [hdrop, htake]
    simp [collapseNL]
  | case4 atOuter l pos prevNL h hfr hnl ih =>
    -- advance on a non-newline character
    have hheadnext : l.head? ≠ some '\n' := by
      rcases Nat.eq_zero_or_pos pos with hp0 | hp1
      · subst hp0
        cases l with
        | nil => simp at h
        | cons c ls =>
          have hcne : c ≠ '\n' := by simpa using hnl
          simpa using hcne
      · exact hhead (fun hc2 => by omega)
    rw [enAux_step_adv atOuter l pos prevNL h hfr hnl]
    rw [ih (by omega) (fun _ => hheadnext)]
    rw [if_neg (by simp : ¬(false = true ∧ pos + 1 = 0))]
    have hdrop : List.drop pos l = l[pos] :: List.drop (pos+1) l :=
      List.drop_eq_getElem_cons h
    have hnl2 : ¬(l[pos] = '\n') := by simpa [List.get_eq_getElem] using hnl
    have htake2 : List.take (pos+1) l = List.take pos l ++ [l[pos]] := by
      rw [List.take_succ, List.getElem?_eq_getElem h]
      rfl
    by_cases hex : atOuter = true ∧ pos = 0
    · rw [if_pos hex]
      obtain ⟨hat, hp0⟩ := hex
      subst hp0
      obtain ⟨c, ls, rfl⟩ : ∃ c ls, l = c :: ls := by
        cases l with
        | nil => simp at h
        | cons c ls => exact ⟨c, ls, rfl⟩
      have hcne : c ≠ '\n' := by simpa using hnl
      simp [collapseNL, hcne]
    · rw [if_neg hex, hdrop]
      simp only [collapseNL]
      rw [if_neg hnl2, htake2, List.append_assoc]
      rfl
  | case5 atOuter l pos prevNL h =>
    have hlen : pos = l.length := by omega
    rw [enAux_exit atOuter l pos prevNL h]
    rw [hlen]
    split <;> simp [collapseNL]


theorem EraseNewlinesCore_eq (s : String) :
    EraseNewlinesCore s =
      String.mk (collapseNL (s.data.dropWhile (fun c => decide (c = '\n'))) false) := by
  unfold EraseNewlinesCore
  rw [enAux_spec true s.data 0 false (by simp) (fun hc => absurd ⟨rfl, rfl⟩ hc)]
  simp

theorem collapseNL_true_head (l : List Char) : (collapseNL l true).head? ≠ some '\n' := by
  induction l with
  | nil => simp [collapseNL]
  | cons c r ih =>
    by_cases hc : c = '\n'
    · simpa [collapseNL, hc] using ih
    · simp [collapseNL, hc]

theorem noNN_cons_iff (c : Char) (t : List Char) :
    noNN (c :: t) ↔ noNN t ∧ ¬(c = '\n' ∧ t.head? = some '\n') := by
  cases t with
  | nil => simp [noNN]
  | cons b t2 =>
    simp [noNN]
    tauto

theorem noNN_collapseNL (l : List Char) (b : Bool) : noNN (collapseNL l b) := by
  induction l generalizing b with
  | nil => simp [collapseNL, noNN]
  | cons c r ih =>
    by_cases hc : c = '\n'
    · cases b with
      | true => simpa [collapseNL, hc] using ih true
      | false =>
        rw [collapseNL]
        rw [if_pos hc, if_neg (by simp : ¬(false = true))]
        rw [noNN_cons_iff]
        exact ⟨ih true, fun hcon => collapseNL_true_head r hcon.2⟩
    · rw [collapseNL]
      rw [if_neg hc]
      rw [noNN_cons_iff]
      refine ⟨ih false, fun hcon => hc hcon.1⟩

theorem collapseNL_filter (l : List Char) (b : Bool) :
    (collapseNL l b).filter (fun c => !(c == '\n')) = l.filter (fun c => !(c == '\n')) := by
  induction l generalizing b with
  | nil => simp [collapseNL]
  | cons c r ih =>
    by_cases hc : c = '\n'
    · cases b with
      | true => simp [collapseNL, hc, List.filter, ih true]
      | false => simp [collapseNL, hc, List.filter, ih true]
    · have hb : (c == '\n') = false := by simpa using hc
      simp [collapseNL, hc, List.filter, ih false, hb]

theorem dropWhile_nl_filter (l : List Char) :
    (l.dropWhile (fun c => decide (c = '\n'))).filter (fun c => !(c == '\n')) =
      l.filter (fun c => !(c == '\n')) := by
  induction l with
  | nil => simp
  | cons c r ih =>
    by_cases hc : c = '\n'
    · simp [List.dropWhile, hc, List.filter, ih]
    · have hb : (c == '\n') = false := by simpa using hc
      simp [List.dropWhile, hc, List.filter, hb]

theorem collapseNL_false_head (l : List Char) : (collapseNL l false).head? = l.head? := by
  cases l with
  | nil => simp [collapseNL]
  | cons c r =>
    by_cases hc : c = '\n'
    · simp [collapseNL, hc]
    · simp [collapseNL, hc]

theorem dropWhile_nl_head (l : List Char) :
    (l.dropWhile (fun c => decide (c = '\n'))).head? ≠ some '\n' := by
  induction l with
  | nil => simp
  | cons c r ih =>
    by_cases hc : c = '\n'
    · simpa [List.dropWhile, hc] using ih
    · simp [List.dropWhile, hc]

/-! ## Directive-free units -/

/-- A line that is not one of the six directives emits nothing while no
version directive has been accepted, and leaves the session unchanged. -/
theorem dispatch_plain (incDir fp line : String) (n : Nat) (st : ParsedShaderData)
    (hnot : firstToken line ∉ directiveTokens)
    (hflag : st._processingExistingInclude = false)
    (hv : st._hasVersionInformation = false) :
    DispatchLine incDir fp line n st = (st, .nothing) := by
  simp only [directiveTokens, List.mem_cons, List.mem_singleton, not_or] at hnot
  obtain ⟨h1, h2, h3, h4, h5, h6, -⟩ := hnot
  unfold DispatchLine
  simp [h1, h2, h3, h4, h5, h6, hflag, hv]

theorem loop_no_directives (incDir : String) (fs : List (String × String))
    (recur : String → ParsedShaderData → Except PErr (ParsedShaderData × String))
    (fp : String) :
    ∀ (lines : List String) (n : Nat) (st : ParsedShaderData),
    st._hasVersionInformation = false →
    st._processingExistingInclude = false →
    (∀ raw ∈ lines, ∃ cl, GetLine raw = some cl ∧ firstToken cl ∉ directiveTokens) →
    ReadFileLoop incDir fs recur fp lines n st = .ok (st, "") := by
  intro lines
  induction lines with
  | nil =>
    intro n st h1 h2 _h3
    rw [ReadFileLoop]
    simp [h2]
  | cons raw rest ih =>
    intro n st h1 h2 h3
    obtain ⟨cl, hcl, hnd⟩ := h3 raw (List.mem_cons_self raw rest)
    rw [ReadFileLoop]
    rw [hcl]
    dsimp only
    rw [dispatch_plain incDir fp cl n st hnd h2 h1]
    exact ih (n+1) st h1 h2 (fun r hr => h3 r (List.mem_cons_of_mem _ hr))

/-! ## Output accounting: lines, tokens and version-line counts -/

theorem splitLA_ne_nil (cs : List Char) : splitLA cs ≠ [] := by
  induction cs with
  | nil => simp [splitLA]
  | cons c rest ih =>
    rw [splitLA]
    by_cases hc : c = '\n'
    · simp [hc]
    · rw [if_neg hc]
      match h : splitLA rest with
      | [] => simp
      | x :: t => simp

theorem splitLA_no_nl (cs : List Char) : ∀ x ∈ splitLA cs, '\n' ∉ x := by
  induction cs with
  | nil => intro x hx; simp [splitLA] at hx; simp [hx]
  | cons c rest ih =>
    intro x hx
    rw [splitLA] at hx
    by_cases hc : c = '\n'
    · rw [if_pos hc] at hx
      rcases List.mem_cons.mp hx with h | h
      · simp [h]
      · exact ih x h
    · rw [if_neg hc] at hx
      match hs : splitLA rest, ih with
      | [], _ => exact absurd hs (splitLA_ne_nil rest)
      | y :: t, ih =>
        rw [hs] at hx
        rcases List.mem_cons.mp hx with h | h
        · subst h
          intro hmem
          rcases List.mem_cons.mp hmem with h2 | h2
          · exact hc h2.symm
          · exact ih y (List.mem_cons_self y t) h2
        · exact ih x (List.mem_cons_of_mem y h)

theorem splitLA_len2 (a : List Char) (h : a.getLast? = some '\n') :
    2 ≤ (splitLA a).length := by
  induction a with
  | nil => simp at h
  | cons c rest ih =>
    rw [splitLA]
    match rest, ih with
    | [], _ =>
      simp at h
      subst h
      decide
    | r :: rest2, ih =>
      have h2 : (r :: rest2).getLast? = some '\n' := by
        rw [List.getLast?_cons_cons] at h
        exact h
      have hlen := ih h2
      by_cases hc : c = '\n'
      · simp [hc]
        omega
      · rw [if_neg hc]
        match hs : splitLA (r :: rest2), hlen with
        | x :: t, hlen =>
          simp at hlen ⊢
          omega

theorem splitLA_getLast_nil (a : List Char) (h : a.getLast? = some '\n') :
    (splitLA a).getLast? = some [] := by
  induction a with
  | nil => simp at h
  | cons c rest ih =>
    rw [splitLA]
    match rest, ih with
    | [], _ =>
      simp at h
      subst h
      decide
    | r :: rest2, ih =>
      have h2 : (r :: rest2).getLast? = some '\n' := by
        rw [List.getLast?_cons_cons] at h
        exact h
      have hrec := ih h2
      have hlen := splitLA_len2 (r :: rest2) h2
      by_cases hc : c = '\n'
      · rw [if_pos hc]
        match hs : splitLA (r :: rest2), hrec, hlen with
        | x :: t, hrec, hlen =>
          rw [List.getLast?_cons_cons]
          exact hrec
      · rw [if_neg hc]
        match hs : splitLA (r :: rest2), hrec, hlen with
        | x :: y :: t, hrec, hlen =>
          rw [List.getLast?_cons_cons] at hrec ⊢
          exact hrec

theorem splitLA_append_last_nl (a b : List Char) (h : a.getLast? = some '\n') :
    splitLA (a ++ b) = (splitLA a).dropLast ++ splitLA b := by
  induction a with
  | nil => simp at h
  | cons c rest ih =>
    match rest, ih with
    | [], _ =>
      simp at h
      subst h
      simp [splitLA]
    | r :: rest2, ih =>
      have h2 : (r :: rest2).getLast? = some '\n' := by
        rw [List.getLast?_cons_cons] at h
        exact h
      have hrec := ih h2
      have hlen := splitLA_len2 (r :: rest2) h2
      rw [List.cons_append, splitLA, splitLA]
      by_cases hc : c = '\n'
      · rw [if_pos hc, if_pos hc]
        rw [hrec]
        match hs : splitLA (r :: rest2), hlen with
        | x :: y :: t, _ => simp
      · rw [if_neg hc, if_neg hc]
        rw [hrec]
        match hs : splitLA (r :: rest2), hlen with
        | x :: y :: t, _ => simp

theorem vcountL_append (L1 L2 : List (List Char)) :
    vcountL (L1 ++ L2) = vcountL L1 + vcountL L2 := by
  induction L1 with
  | nil => simp [vcountL]
  | cons x t ih => rw [List.cons_append, vcountL, vcountL, ih]; omega

theorem vcount_append (t u : String) (h : endsNL t) :
    vcount (t ++ u) = vcount t + vcount u := by
  rcases h with h | h
  · have : t = "" := by
      cases t with
      | mk d => simp at h; rw [h]
    subst this
    have : "" ++ u = u := by simp
    rw [this]
    simp [vcount, splitLA, vcountL, firstTokL, tokensAux]
  · unfold vcount
    have hdata : (t ++ u).data = t.data ++ u.data := by
      cases t; cases u; rfl
    rw [hdata]
    rw [splitLA_append_last_nl t.data u.data h]
    rw [vcountL_append]
    have hne : splitLA t.data ≠ [] := splitLA_ne_nil _
    have hdec := List.dropLast_append_getLast hne
    have hlast : (splitLA t.data).getLast hne = [] := by
      have := splitLA_getLast_nil t.data h
      rw [List.getLast?_eq_getLast _ hne] at this
      simpa using this
    conv_rhs => rw [← hdec]
    rw [vcountL_append, hlast]
    simp [vcountL, firstTokL, tokensAux]


theorem tokensAux_append_nl (l : List Char) : ∀ cur, tokensAux (l ++ ['\n']) cur = tokensAux l cur := by
  induction l with
  | nil =>
    intro cur
    by_cases hc : cur.isEmpty
    · simp [tokensAux, isSpaceChar, hc]
    · simp [tokensAux, isSpaceChar, hc]
  | cons c rest ih =>
    intro cur
    rw [List.cons_append, tokensAux, tokensAux]
    by_cases hs : isSpaceChar c
    · rw [if_pos hs, if_pos hs]
      by_cases hc : cur.isEmpty
      · rw [if_pos hc, if_pos hc, ih]
      · rw [if_neg hc, if_neg hc, ih]
    · rw [if_neg hs, if_neg hs, ih]

theorem firstTokL_append_nl (b : List Char) : firstTokL (b ++ ['\n']) = firstTokL b := by
  unfold firstTokL
  rw [tokensAux_append_nl]

theorem firstToken_of_line (line : String) (b : List Char) (hline : line.data = b ++ ['\n']) :
    firstToken line = String.mk (firstTokL b) := by
  unfold firstToken
  rw [hline, firstTokL_append_nl]

theorem splitLA_nl_free_append (b : List Char) (hb : '\n' ∉ b) (x : List Char) :
    splitLA (b ++ '\n' :: x) = b :: splitLA x := by
  induction b with
  | nil => simp [splitLA]
  | cons c rest ih =>
    have hc : c ≠ '\n' := fun h => hb (by simp [h])
    have hrest : '\n' ∉ rest := fun h => hb (List.mem_cons_of_mem c h)
    rw [List.cons_append, splitLA, if_neg hc, ih hrest]

theorem vcount_body_one (b : List Char) (hb : '\n' ∉ b) :
    vcount (String.mk (b ++ ['\n'])) = if firstTokL b = "#version".data then 1 else 0 := by
  unfold vcount
  have : b ++ ['\n'] = b ++ '\n' :: ([] : List Char) := rfl
  rw [this, splitLA_nl_free_append b hb []]
  simp [vcountL, splitLA, firstTokL, tokensAux]

theorem vcount_body_two (b : List Char) (hb : '\n' ∉ b) :
    vcount (String.mk (b ++ ['\n', '\n'])) = if firstTokL b = "#version".data then 1 else 0 := by
  unfold vcount
  have : b ++ ['\n', '\n'] = b ++ '\n' :: ['\n'] := rfl
  rw [this, splitLA_nl_free_append b hb ['\n']]
  simp [vcountL, splitLA, firstTokL, tokensAux]

theorem tokensAux_no_space (l : List Char) :
    ∀ cur, (∀ c ∈ cur, ¬(isSpaceChar c = true)) →
    ∀ x ∈ tokensAux l cur, ∀ c ∈ x, ¬(isSpaceChar c = true) := by
  induction l with
  | nil =>
    intro cur hcur x hx
    rw [tokensAux] at hx
    by_cases hc : cur.isEmpty
    · simp [hc] at hx
    · rw [if_neg hc] at hx
      simp at hx
      subst hx
      intro c hcx
      exact hcur c (by simpa using hcx)
  | cons a rest ih =>
    intro cur hcur x hx
    rw [tokensAux] at hx
    by_cases hs : isSpaceChar a
    · rw [if_pos hs] at hx
      by_cases hc : cur.isEmpty
      · rw [if_pos hc] at hx
        exact ih [] (by simp) x hx
      · rw [if_neg hc] at hx
        rcases List.mem_cons.mp hx with h | h
        · subst h
          intro c hcx
          exact hcur c (by simpa using hcx)
        · exact ih [] (by simp) x h
    · rw [if_neg hs] at hx
      refine ih (a :: cur) ?_ x hx
      intro c hcc
      rcases List.mem_cons.mp hcc with h | h
      · subst h; exact hs
      · exact hcur c h

theorem secondToken_no_nl (line : String) : '\n' ∉ (secondToken line).data := by
  unfold secondToken secondTokL
  intro hmem
  match hd : (tokensAux line.data []).drop 1 with
  | [] =>
    rw [hd] at hmem
    simp at hmem
  | x :: t =>
    rw [hd] at hmem
    simp at hmem
    have hx : x ∈ tokensAux line.data [] := by
      have : x ∈ (tokensAux line.data []).drop 1 := by rw [hd]; exact List.mem_cons_self x t
      exact List.mem_of_mem_drop this
    exact tokensAux_no_space line.data [] (by simp) x hx '\n' hmem (by decide)

theorem firstTokL_define_chunk (rest : List Char) :
    firstTokL ("#define ".data ++ rest) = "#define".data := by
  simp +decide [firstTokL, tokensAux, isSpaceChar]

theorem endsNL_append (t u : String) (ht : endsNL t) (hu : endsNL u) : endsNL (t ++ u) := by
  have hdata : (t ++ u).data = t.data ++ u.data := by cases t; cases u; rfl
  rcases hu with hu | hu
  · have : u = "" := by cases u with | mk d => simp at hu; rw [hu]
    subst this
    rcases ht with ht | ht
    · left; rw [hdata, ht]; rfl
    · right; rw [hdata]; simpa using ht
  · right
    rw [hdata]
    rw [List.getLast?_append, hu]
    rfl

theorem ecAux_eq_slash_erase (l : List Char) (pos : Nat)
    (hp : pos < l.length) (hg : l.get? pos = some '/')
    (e : Nat) (prop : pos ≤ e ∧ e < l.length ∧ l.get? e = some '\n')
    (hf : findNl l pos = some ⟨e, prop⟩) :
    ecAux l pos true = ecAux (l.take (pos-1) ++ l.drop e) (pos-1) false := by
  rw [ecAux, dif_pos hp, dif_pos hg, if_pos rfl, hf]

theorem ecAux_eq_slash_adv (l : List Char) (pos : Nat)
    (hp : pos < l.length) (hg : l.get? pos = some '/') :
    ecAux l pos false = ecAux l (pos+1) true := by
  rw [ecAux, dif_pos hp, dif_pos hg, if_neg (by simp : ¬(false = true))]

theorem ecAux_eq_star_erase (l : List Char) (pos : Nat)
    (hp : pos < l.length) (hg : ¬(l.get? pos = some '/')) (hg2 : l.get? pos = some '*')
    (j : Nat) (prop : pos ≤ j ∧ j < l.length ∧ l.get? j = some '/' ∧ l.get? (j-1) = some '*')
    (hf : findStarSlash l pos = some ⟨j, prop⟩) :
    ecAux l pos true = ecAux (l.take (pos-1) ++ l.drop (j+1)) pos true := by
  rw [ecAux, dif_pos hp, dif_neg hg, dif_pos hg2, if_pos rfl, hf]

theorem ecAux_eq_star_adv (l : List Char) (pos : Nat) (prev : Bool)
    (hp : pos < l.length) (hg : ¬(l.get? pos = some '/')) (hg2 : l.get? pos = some '*')
    (hprev : prev = false) :
    ecAux l pos prev = ecAux l (pos+1) prev := by
  subst hprev
  rw [ecAux, dif_pos hp, dif_neg hg, dif_pos hg2, if_neg (by simp : ¬(false = true))]

theorem ecAux_eq_other (l : List Char) (pos : Nat) (prev : Bool)
    (hp : pos < l.length) (hg : ¬(l.get? pos = some '/')) (hg2 : ¬(l.get? pos = some '*')) :
    ecAux l pos prev = ecAux l (pos+1) false := by
  rw [ecAux, dif_pos hp, dif_neg hg, dif_neg hg2]

theorem ecAux_eq_exit (l : List Char) (pos : Nat) (prev : Bool)
    (hp : ¬(pos < l.length)) : ecAux l pos prev = some l := by
  rw [ecAux, dif_neg hp]

theorem shape_nl_index (b : List Char) (hb : '\n' ∉ b) (e : Nat)
    (he : e < (b ++ ['\n']).length) (hv : (b ++ ['\n']).get? e = some '\n') :
    e = b.length := by
  rcases Nat.lt_or_ge e b.length with hlt | hge
  · exfalso
    rw [List.get?_eq_getElem?, List.getElem?_append] at hv
    rw [if_pos hlt] at hv
    have : '\n' ∈ b := by
      have := List.getElem?_eq_some.mp hv
      obtain ⟨hh, heq⟩ := this
      rw [← heq]
      exact List.getElem_mem hh
    exact hb this
  · simp at he
    omega

theorem ecAux_shape (l : List Char) (pos : Nat) (prev : Bool) (l2 : List Char)
    (hsh : ∃ b, l = b ++ ['\n'] ∧ '\n' ∉ b)
    (h : ecAux l pos prev = some l2) :
    ∃ b2, l2 = b2 ++ ['\n'] ∧ '\n' ∉ b2 := by
  induction l, pos, prev using ecAux.induct with
  | case1 l pos hp hg hf =>
    rw [ecAux, dif_pos hp, dif_pos hg, if_pos rfl, hf] at h
    exact absurd h (by simp)
  | case2 l pos hp hg e prop hf ih =>
    obtain ⟨b, rfl, hb⟩ := hsh
    rw [ecAux_eq_slash_erase _ pos hp hg e prop hf] at h
    obtain ⟨hpe, helt, hev⟩ := prop
    have he : e = b.length := shape_nl_index b hb e helt hev
    subst he
    have hple : pos - 1 ≤ b.length := by
      simp at hp
      omega
    refine ih ⟨(b ++ ['\n']).take (pos-1), ?_, ?_⟩ h
    · rw [List.drop_left' rfl]
    · rw [List.take_append_of_le_length hple]
      intro hmem
      exact hb (List.mem_of_mem_take hmem)
  | case3 l pos prev hp hg hprev ih =>
    have hpf : prev = false := by simpa using hprev
    subst hpf
    rw [ecAux_eq_slash_adv l pos hp hg] at h
    exact ih hsh h
  | case4 l pos hp hg hg2 hf =>
    rw [ecAux, dif_pos hp, dif_neg hg, dif_pos hg2, if_pos rfl, hf] at h
    exact absurd h (by simp)
  | case5 l pos hp hg hg2 j prop hf ih =>
    obtain ⟨b, rfl, hb⟩ := hsh
    rw [ecAux_eq_star_erase _ pos hp hg hg2 j prop hf] at h
    obtain ⟨hpj, hjlt, hjv, hjv2⟩ := prop
    have hj : j ≠ b.length := by
      intro hje
      subst hje
      rw [List.get?_eq_getElem?, List.getElem?_append] at hjv
      simp at hjv
    have hjle : j + 1 ≤ b.length := by
      simp at hjlt
      omega
    have hple : pos - 1 ≤ b.length := by
      simp at hp
      omega
    refine ih ⟨(b ++ ['\n']).take (pos-1) ++ b.drop (j+1), ?_, ?_⟩ h
    · rw [List.drop_append_of_le_length hjle, List.append_assoc]
    · rw [List.take_append_of_le_length hple]
      intro hmem
      rcases List.mem_append.mp hmem with hm | hm
      · exact hb (List.mem_of_mem_take hm)
      · exact hb (List.mem_of_mem_drop hm)
  | case6 l pos prev hp hg hg2 hprev ih =>
    rw [ecAux_eq_star_adv l pos prev hp hg hg2 (by simpa using hprev)] at h
    exact ih hsh h
  | case7 l pos prev hp hg hg2 ih =>
    rw [ecAux_eq_other l pos prev hp hg hg2] at h
    exact ih hsh h
  | case8 l pos prev hp =>
    rw [ecAux_eq_exit l pos prev hp] at h
    obtain ⟨b, rfl, hb⟩ := hsh
    exact ⟨b, by simpa using h.symm, hb⟩

theorem GetLine_shape (raw line : String) (hnl : '\n' ∉ raw.data)
    (h : GetLine raw = some line) :
    ∃ b, line.data = b ++ ['\n'] ∧ '\n' ∉ b := by
  unfold GetLine EraseComments at h
  by_cases hfast : (String.mk (raw.data ++ ['\n'])).data.all (fun c => !(c == '/') && !(c == '*'))
  · rw [if_pos hfast] at h
    refine ⟨raw.data, ?_, hnl⟩
    rw [← Option.some_inj.mp h]
  · rw [if_neg hfast] at h
    simp only [Option.map_eq_some'] at h
    obtain ⟨l2, hl2, hmk⟩ := h
    obtain ⟨b2, hb2, hbn⟩ := ecAux_shape (raw.data ++ ['\n']) 0 false l2 ⟨raw.data, rfl, hnl⟩ hl2
    exact ⟨b2, by rw [← hmk, hb2], hbn⟩


/-- Strings with equal character data are equal. -/
theorem str_eq_of_data (s t : String) (h : s.data = t.data) : s = t := by
  cases s with
  | mk d =>
    cases t with
    | mk d2 =>
      simp at h
      rw [h]

set_option maxHeartbeats 2000000 in
/-- Classification of a dispatch step by its effect on the version flag:
either the flag is unchanged and any emitted chunk contains no `#version`
line, or the flag flips from unset to set and the emitted chunk contains
exactly one `#version` line.  Every emitted chunk ends in a newline. -/
theorem dispatch_hV (incDir fp line : String) (n : Nat) (st st2 : ParsedShaderData)
    (act : Action) (b : List Char)
    (hline : line.data = b ++ ['\n']) (hb : '\n' ∉ b)
    (hd : DispatchLine incDir fp line n st = (st2, act)) :
    (st2._hasVersionInformation = st._hasVersionInformation ∧
      ∀ t, act = .emit t → vcount t = 0 ∧ endsNL t) ∨
    (st._hasVersionInformation = false ∧ st2._hasVersionInformation = true ∧
      ∃ t, act = .emit t ∧ vcount t = 1 ∧ endsNL t) := by
  have hfirst := firstToken_of_line line b hline
  have hlineq : line ++ "\n" = String.mk (b ++ ['\n', '\n']) := by
    apply str_eq_of_data
    cases line with
    | mk d =>
      simp at hline
      subst hline
      simp
  have hverline : vcount (line ++ "\n") = if firstTokL b = "#version".data then 1 else 0 := by
    rw [hlineq]
    exact vcount_body_two b hb
  have hendline : endsNL (line ++ "\n") := by
    right
    rw [hlineq]
    show (b ++ ['\n', '\n']).getLast? = some '\n'
    rw [show b ++ ['\n', '\n'] = (b ++ ['\n']) ++ ['\n'] by simp]
    exact List.getLast?_concat _
  unfold DispatchLine at hd
  dsimp only at hd
  repeat' split at hd
  all_goals
    simp only [Prod.mk.injEq] at hd
  all_goals
    obtain ⟨h1, h2⟩ := hd
  all_goals
    subst h1
  all_goals
    subst h2
  all_goals
    try (left; exact ⟨rfl, fun t ht => Action.noConfusion ht⟩)
  -- remaining goals, in branch order: define-emit, version-emit, plain-emit
  · -- define emission: `#define NAME` followed by a newline, not a version line
    left
    refine ⟨rfl, fun t ht => ?_⟩
    cases ht
    have hdata : ("#define" ++ " " ++ secondToken line ++ "\n") =
        String.mk (("#define ".data ++ (secondToken line).data) ++ ['\n']) := by
      apply str_eq_of_data
      cases hsec : secondToken line with
      | mk d => simp
    have hnonl : '\n' ∉ ("#define ".data ++ (secondToken line).data) := by
      intro hmem
      rcases List.mem_append.mp hmem with hmem | hmem
      · revert hmem; decide
      · exact secondToken_no_nl line hmem
    constructor
    · rw [hdata, vcount_body_one _ hnonl, if_neg]
      rw [firstTokL_define_chunk]
      decide
    · right
      rw [hdata]
      show ((("#define ".data ++ (secondToken line).data) ++ ['\n']).getLast? = some '\n')
      exact List.getLast?_concat _
  · -- version emission
    rename_i htok hnv
    right
    refine ⟨by simpa using hnv, rfl, line ++ "\n", rfl, ?_, hendline⟩
    rw [hverline]
    rw [hfirst] at htok
    have : firstTokL b = "#version".data := congrArg String.data htok
    rw [if_pos this]
  · -- plain line emission while a version directive has been accepted
    rename_i hver hinc hcond
    left
    refine ⟨rfl, fun t ht => ?_⟩
    cases ht
    refine ⟨?_, hendline⟩
    rw [hverline, if_neg]
    intro hc
    apply hver
    rw [hfirst, hc]

/-- Lines produced by the `getline` loop contain no newline character. -/
theorem splitLines_no_nl (content : String) :
    ∀ raw ∈ splitLines content, '\n' ∉ raw.data := by
  intro raw hraw
  unfold splitLines at hraw
  rcases List.mem_map.mp hraw with ⟨cs, hcs, hb⟩
  subst hb
  simpa using splitLA_no_nl content.data cs hcs

set_option maxHeartbeats 1000000 in
/-- Conservation of the version count through the per-line loop: the number
of `#version` lines in the produced output plus the incoming flag equals the
outgoing flag (as 0/1 quantities), provided recursive inclusion preserves
the same invariant. -/
theorem loop_hV (incDir : String) (fs : List (String × String))
    (recur : String → ParsedShaderData → Except PErr (ParsedShaderData × String))
    (hrec : ∀ loc st st2 out, recur loc st = .ok (st2, out) →
      vcount out + (if st._hasVersionInformation then 1 else 0) =
        (if st2._hasVersionInformation then 1 else 0) ∧ endsNL out)
    (fp : String) (lines : List String)
    (hlines : ∀ raw ∈ lines, '\n' ∉ raw.data) :
    ∀ n st st2 out, ReadFileLoop incDir fs recur fp lines n st = .ok (st2, out) →
      vcount out + (if st._hasVersionInformation then 1 else 0) =
        (if st2._hasVersionInformation then 1 else 0) ∧ endsNL out := by
  induction lines with
  | nil =>
    intro n st st2 out h
    rw [ReadFileLoop] at h
    have hout : out = "" ∧ st2._hasVersionInformation = st._hasVersionInformation := by
      split at h
      · split at h
        · exact absurd h (by simp)
        · split at h
          · simp only [Except.ok.injEq, Prod.mk.injEq] at h
            exact ⟨h.2.symm, by rw [← h.1]⟩
          · simp only [Except.ok.injEq, Prod.mk.injEq] at h
            exact ⟨h.2.symm, by rw [← h.1]⟩
      · simp only [Except.ok.injEq, Prod.mk.injEq] at h
        exact ⟨h.2.symm, by rw [← h.1]⟩
    obtain ⟨ho, hv⟩ := hout
    subst ho
    rw [hv]
    exact ⟨by simp [vcount, splitLA, vcountL, firstTokL, tokensAux], Or.inl rfl⟩
  | cons raw rest ih =>
    intro n st st2 out h
    have hrawnl : '\n' ∉ raw.data := hlines raw (by simp)
    have hrest : ∀ r ∈ rest, '\n' ∉ r.data := fun r hr => hlines r (by simp [hr])
    rw [ReadFileLoop] at h
    cases hg : GetLine raw with
    | none => rw [hg] at h; exact absurd h (by simp)
    | some line =>
      rw [hg] at h
      dsimp only at h
      obtain ⟨b, hbeq, hbnn⟩ := GetLine_shape raw line hrawnl hg
      cases hdp : DispatchLine incDir fp line n st with
      | mk stm act =>
        have hclass := dispatch_hV incDir fp line n st stm act b hbeq hbnn hdp
        rw [hdp] at h
        cases act with
        | err e => dsimp only at h; exact absurd h (by simp)
        | nothing =>
          dsimp only at h
          have hvv : stm._hasVersionInformation = st._hasVersionInformation := by
            rcases hclass with ⟨hvv, _⟩ | ⟨_, _, t, ht, _⟩
            · exact hvv
            · exact absurd ht (by simp)
          obtain ⟨he, hnl⟩ := ih hrest (n+1) stm st2 out h
          rw [hvv] at he
          exact ⟨he, hnl⟩
        | emit t =>
          dsimp only at h
          cases hr : ReadFileLoop incDir fs recur fp rest (n+1) stm with
          | error e => rw [hr] at h; exact absurd h (by simp)
          | ok p =>
            cases p with
            | mk st3 s =>
              rw [hr] at h
              simp only [Except.ok.injEq, Prod.mk.injEq] at h
              obtain ⟨h1, h2⟩ := h
              subst h1
              subst h2
              obtain ⟨he, hnl⟩ := ih hrest (n+1) stm st3 s hr
              rcases hclass with ⟨hvv, hall⟩ | ⟨hv0, hv1, t2, ht2, htc, htnl⟩
              · obtain ⟨htc, htnl⟩ := hall t rfl
                rw [hvv] at he
                refine ⟨?_, endsNL_append t s htnl hnl⟩
                rw [vcount_append t s htnl, htc]
                omega
              · have ht2e : t2 = t := by
                  cases ht2
                  rfl
                rw [ht2e] at htc htnl
                have hsm : (if stm._hasVersionInformation = true then 1 else 0) = 1 := by
                  simp [hv1]
                have hst : (if st._hasVersionInformation = true then 1 else 0) = 0 := by
                  simp [hv0]
                rw [hsm] at he
                rw [hst]
                refine ⟨?_, endsNL_append t s htnl hnl⟩
                rw [vcount_append t s htnl, htc]
                omega
        | includeAt loc =>
          dsimp only at h
          cases hrc : recur loc stm with
          | error e => rw [hrc] at h; exact absurd h (by simp)
          | ok p =>
            cases p with
            | mk st3 sub =>
              rw [hrc] at h
              dsimp only at h
              cases hr : ReadFileLoop incDir fs recur fp rest (n+1) st3 with
              | error e => rw [hr] at h; exact absurd h (by simp)
              | ok q =>
                cases q with
                | mk st4 s =>
                  rw [hr] at h
                  simp only [Except.ok.injEq, Prod.mk.injEq] at h
                  obtain ⟨h1, h2⟩ := h
                  subst h1
                  subst h2
                  have hvv : stm._hasVersionInformation = st._hasVersionInformation := by
                    rcases hclass with ⟨hvv, _⟩ | ⟨_, _, t, ht, _⟩
                    · exact hvv
                    · exact absurd ht (by simp)
                  obtain ⟨hesub, hnlsub⟩ := hrec loc stm st3 sub hrc
                  obtain ⟨hes, hnls⟩ := ih hrest (n+1) st3 st4 s hr
                  rw [hvv] at hesub
                  refine ⟨?_, endsNL_append sub s hnlsub hnls⟩
                  rw [vcount_append sub s hnlsub]
                  omega

/-- Conservation of the version count through `Shader::ReadFile`, at any
fuel: a successful run emits exactly one `#version` line if the flag flips,
and none if it was already set. -/
theorem file_hV (incDir : String) (fs : List (String × String)) :
    ∀ fuel st fp st2 out, ReadFile incDir fs fuel st fp = .ok (st2, out) →
      vcount out + (if st._hasVersionInformation then 1 else 0) =
        (if st2._hasVersionInformation then 1 else 0) ∧ endsNL out := by
  intro fuel
  induction fuel with
  | zero =>
    intro st fp st2 out h
    exact absurd h (by simp [ReadFile])
  | succ fuel ih =>
    intro st fp st2 out h
    rw [ReadFile] at h
    cases hl : lookupFS fs fp with
    | none => rw [hl] at h; exact absurd h (by simp)
    | some content =>
      rw [hl] at h
      exact loop_hV incDir fs _ (fun loc s s2 o hr => ih s loc s2 o hr) fp
        (splitLines content) (splitLines_no_nl content) 1 st st2 out h

/-- On a buffer containing neither `'/'` nor `'*'` the comment-erasing loop
returns the buffer unchanged, from any position and flag. -/
theorem ecAux_clean (l : List Char) (hl : ∀ c ∈ l, ¬(c = '/') ∧ ¬(c = '*')) :
    ∀ n pos prevSlash, l.length - pos ≤ n → ecAux l pos prevSlash = some l := by
  intro n
  induction n with
  | zero =>
    intro pos prevSlash hle
    rw [ecAux, dif_neg]
    omega
  | succ n ih =>
    intro pos prevSlash hle
    by_cases h : pos < l.length
    · have hget : l.get? pos = some l[pos] := by
        rw [List.get?_eq_getElem?, List.getElem?_eq_getElem h]
      have hcc := hl l[pos] (List.getElem_mem h)
      have hns : ¬(l.get? pos = some '/') := by
        rw [hget]
        intro hc
        simp at hc
        exact hcc.1 hc
      have hnstar : ¬(l.get? pos = some '*') := by
        rw [hget]
        intro hc
        simp at hc
        exact hcc.2 hc
      rw [ecAux, dif_pos h, dif_neg hns, dif_neg hnstar]
      exact ih (pos+1) false (by omega)
    · rw [ecAux, dif_neg h]

/-- The fast path of `EraseComments` agrees with the loop: `EraseComments`
always equals the loop run from position 0 with the flag clear. -/
theorem EraseComments_eq_loop (s : String) :
    EraseComments s = (ecAux s.data 0 false).map (fun l => String.mk l) := by
  unfold EraseComments
  split
  · rename_i hall
    have hl : ∀ c ∈ s.data, ¬(c = '/') ∧ ¬(c = '*') := by
      intro c hc
      have := List.all_eq_true.mp hall c hc
      simpa using this
    rw [ecAux_clean s.data hl s.data.length 0 false (by omega)]
    cases s with
    | mk d => rfl
  · rfl

/-! ## Claim theorems -/

/-- **C1, counterexample.**  The claim resolves `#include <f.h>` by scanning
the caller-registered include-search directories (here `["a/", "b/"]`) and
inlining the file found in the first directory containing it (`b/f.h`
exists).  The implemented `Shader::ReadFile` instead only prepends the fixed
`INCLUDE_DIRECTORY` macro (here `"a/"`) and therefore fails with a
file-open error wrapped in the inclusion context, even though the
spec-modelled search succeeds. -/
theorem C1_counterexample :
    resolveAngleFromSpec ["a/", "b/"]
        [("main", "#version 460\n#include <f.h>"), ("b/f.h", "X")] "f.h" = some "b/f.h" ∧
    ReadFile "a/" [("main", "#version 460\n#include <f.h>"), ("b/f.h", "X")]
        9 initialParseData "main" =
      .error (.includedFrom (.cantOpen "a/f.h") "main" 2) := by
  constructor
  · decide
  · decide

/-- **C1, amended.**  For every `#include <name>` directive encountered while
skipping is false, the target is resolved by prepending the single
compile-time include directory (`INCLUDE_DIRECTORY`) to the bracketed name —
the caller-registered directory list is never consulted — and the resolved
file's flattened output is inlined at that position. -/
theorem C1_include_resolution :
    (∀ (incDir fp line : String) (n : Nat) (st : ParsedShaderData) (c : Char) (cs : List Char),
      st._processingExistingInclude = false →
      firstToken line = "#include" →
      (secondToken line).data = c :: cs →
      c = '<' →
      (c :: cs).getLast (List.cons_ne_nil c cs) = '>' →
      DispatchLine incDir fp line n st =
        (st, .includeAt (incDir ++ String.mk cs.dropLast))) ∧
    (∀ (incDir : String) (fs : List (String × String))
      (recur : String → ParsedShaderData → Except PErr (ParsedShaderData × String))
      (fp raw line loc : String) (rest : List String) (n : Nat)
      (st st2 st3 : ParsedShaderData) (sub : String),
      GetLine raw = some line →
      DispatchLine incDir fp line n st = (st2, .includeAt loc) →
      recur loc st2 = .ok (st3, sub) →
      ReadFileLoop incDir fs recur fp (raw :: rest) n st =
        (match ReadFileLoop incDir fs recur fp rest (n+1) st3 with
         | .error e => .error e
         | .ok (st4, s) => .ok (st4, sub ++ s))) :=
  ⟨fun incDir fp line n st c cs h1 h2 h3 h4 h5 =>
      dispatch_include_angle incDir fp line n st h1 h2 c cs h3 h4 h5,
   fun incDir fs recur fp raw line loc rest n st st2 st3 sub h1 h2 h3 =>
      loop_include_inlines incDir fs recur fp raw line loc rest n st st2 st3 sub h1 h2 h3⟩

/-- **C1, witness.**  The amended resolution and inlining at a concrete
input: `#include <f.h>` with include directory `"inc/"` resolves to
`inc/f.h` and the included file's output is inlined. -/
theorem C1_witness :
    DispatchLine "inc/" "main" "#include <f.h>\n" 2 initialParseData =
      (initialParseData, .includeAt ("inc/" ++ String.mk (['f', '.', 'h', '>'].dropLast))) ∧
    ReadFileLoop "inc/" [] (fun _ st => .ok (st, "SUB\n")) "main" ["#include <f.h>"] 2
        initialParseData =
      (match ReadFileLoop "inc/" [] (fun _ st => .ok (st, "SUB\n")) "main" [] 3
          initialParseData with
       | .error e => .error e
       | .ok (st4, s) => .ok (st4, "SUB\n" ++ s)) := by
  constructor
  · exact C1_include_resolution.1 "inc/" "main" "#include <f.h>\n" 2 initialParseData
      '<' ['f', '.', 'h', '>'] (by decide) (by decide) (by decide) (by decide) (by decide)
  · exact C1_include_resolution.2 "inc/" [] (fun _ st => .ok (st, "SUB\n")) "main"
      "#include <f.h>" "#include <f.h>\n" "inc/f.h" [] 2
      initialParseData initialParseData initialParseData "SUB\n"
      (by decide) (by decide) (by decide)

/-- **C2.**  `#pragma once` regression case.  A file starting with
`#pragma once` included twice in one session emits its body exactly once
(first conjunct).  But on a third inclusion the claim fails: the once-stack
entry pushed during the first inclusion was popped at the end of the second,
and the end-of-file handler of the third inclusion reads
`_pragmaStack.top()` on an *empty* stack — undefined behavior in the C++,
modeled as the `pragmaStackEmpty` error — instead of completing without
error (second conjunct). -/
theorem C2_pragma_once_stack :
    ReadFile "inc/"
        [("main", "#version 460\n#include \"once.glsl\"\n#include \"once.glsl\""),
         ("once.glsl", "#pragma once\nbody")] 9 initialParseData "main" =
      .ok (⟨[], [], ["once.glsl"], [], true, false⟩, "#version 460\n\nbody\n\n") ∧
    ReadFile "inc/"
        [("main",
          "#version 460\n#include \"once.glsl\"\n#include \"once.glsl\"\n#include \"once.glsl\""),
         ("once.glsl", "#pragma once\nbody")] 9 initialParseData "main" =
      .error (.includedFrom (.pragmaStackEmpty "once.glsl") "main" 4) := by
  constructor
  · decide
  · decide

/-- **C3, counterexample.**  The claim says the entire `#define` line is
emitted verbatim, including tokens after the name.  On the line
`#define PI 3` (with an accepted version directive and no tracked guard
named `PI`) the code emits only `#define PI` followed by a newline — the
token `3` is dropped. -/
theorem C3_counterexample :
    DispatchLine "inc/" "f" "#define PI 3\n" 5 ⟨[], [], [], [], true, false⟩ =
      (⟨[], [], [], [], true, false⟩, .emit "#define PI\n") ∧
    "#define PI\n" ≠ "#define PI 3\n" := by
  constructor
  · decide
  · decide

/-- **C3, amended.**  For every `#define NAME ...` line processed while
skipping is false, where `NAME` does not match a tracked guard name: if a
version directive has already been accepted, the directive token and the
name only (`#define NAME`, any further tokens dropped) are emitted,
terminated by a newline; if no version directive has been accepted yet, the
fatal ordering error is raised instead. -/
theorem C3_define_emission :
    (∀ (incDir fp line : String) (n : Nat) (st : ParsedShaderData),
      st._processingExistingInclude = false →
      firstToken line = "#define" →
      secondToken line ≠ "" →
      memStr st._includeGuardInstances (secondToken line) = false →
      st._hasVersionInformation = true →
      DispatchLine incDir fp line n st =
        (st, .emit ("#define" ++ " " ++ secondToken line ++ "\n"))) ∧
    (∀ (incDir fp line : String) (n : Nat) (st : ParsedShaderData),
      st._processingExistingInclude = false →
      firstToken line = "#define" →
      secondToken line ≠ "" →
      memStr st._includeGuardInstances (secondToken line) = false →
      st._hasVersionInformation = false →
      DispatchLine incDir fp line n st = (st, .err (.formatted fp line (toString n)
        "Version directive must be first statement and may not be repeated." 0))) :=
  ⟨fun incDir fp line n st h1 h2 h3 h4 h5 =>
      dispatch_define_emit incDir fp line n st h1 h2 h3 h4 h5,
   fun incDir fp line n st h1 h2 h3 h4 h5 =>
      dispatch_define_order_error incDir fp line n st h1 h2 h3 h4 h5⟩

/-- **C4, counterexample.**  The claim says that with no recorded
`#define GUARD_G`, including `g.glsl` twice emits its guarded body twice
(and the re-encountered `#ifndef` is a harmless no-op).  The `#ifndef` is
indeed a no-op, but the session then *fails*: the second inclusion's
`#endif` finds no guard with an unset closing line (the single `GUARD_G`
record was closed during the first inclusion) and raises the
structural-mismatch error, so the run returns an error instead of output
containing the body twice. -/
theorem C4_counterexample :
    ReadFile "inc/"
        [("main", "#version 460\n#include \"g.glsl\"\n#include \"g.glsl\""),
         ("g.glsl", "#ifndef GUARD_G\nbody\n#endif")] 9 initialParseData "main" =
      .error (.includedFrom
        (.formatted "g.glsl" "#endif\n" "3"
          "#endif pre-processor directive without preexisting #if / #ifndef directive." 0)
        "main" 3) := by
  decide

/-- **C4, amended.**  A re-encountered `#ifndef X` whose guard has no
recorded `#define X` is a per-directive no-op (first conjunct), and once a
matching `#define X` has been recorded a later `#ifndef X` sets skipping
(second conjunct), so a guarded-and-defined file included twice emits its
body exactly once (third conjunct).  But including a file with an
*undefined* guard twice does not emit the body twice: the second
inclusion's `#endif` raises the structural-mismatch error and the session
aborts (fourth conjunct). -/
theorem C4_ifndef_guard :
    (∀ (incDir fp line : String) (n : Nat) (st : ParsedShaderData),
      firstToken line = "#ifndef" →
      secondToken line ≠ "" →
      memStr st._includeGuardInstances (secondToken line) = true →
      (∀ g ∈ st._includeGuards,
        ¬(g._includeGuardName = secondToken line ∧ g._defineLineNumber ≠ -1)) →
      DispatchLine incDir fp line n st = (st, .nothing)) ∧
    (∀ (incDir fp line : String) (n : Nat) (st : ParsedShaderData) (g : IncludeGuard),
      firstToken line = "#ifndef" →
      secondToken line ≠ "" →
      memStr st._includeGuardInstances (secondToken line) = true →
      g ∈ st._includeGuards →
      g._includeGuardName = secondToken line →
      g._defineLineNumber ≠ -1 →
      DispatchLine incDir fp line n st =
        ({st with _processingExistingInclude := true}, .nothing)) ∧
    ReadFile "inc/"
        [("main", "#version 460\n#include \"g.glsl\"\n#include \"g.glsl\""),
         ("g.glsl", "#ifndef GUARD_G\n#define GUARD_G\nbody\n#endif")]
        9 initialParseData "main" =
      .ok (⟨[⟨"g.glsl", "GUARD_G", "#ifndef GUARD_G\n", 1, 2, 4⟩], ["GUARD_G"],
            [], [], true, false⟩, "#version 460\n\nbody\n\n") ∧
    ReadFile "inc/"
        [("main", "#version 460\n#include \"g.glsl\"\n#include \"g.glsl\""),
         ("g.glsl", "#ifndef GUARD_G\nbody\n#endif")] 9 initialParseData "main" =
      .error (.includedFrom
        (.formatted "g.glsl" "#endif\n" "3"
          "#endif pre-processor directive without preexisting #if / #ifndef directive." 0)
        "main" 3) :=
  ⟨fun incDir fp line n st h1 h2 h3 h4 =>
      dispatch_ifndef_noop incDir fp line n st h1 h2 h3 h4,
   fun incDir fp line n st g h1 h2 h3 hg hgn hgd =>
      dispatch_ifndef_skip incDir fp line n st h1 h2 h3 g hg hgn hgd,
   by decide,
   by decide⟩

/-- **C4, witness.**  The two general conjuncts of `C4_ifndef_guard`
evaluated at concrete sessions: a tracked-but-undefined guard name makes
`#ifndef GUARD_G` a no-op; a tracked-and-defined one sets skipping. -/
theorem C4_witness :
    DispatchLine "inc/" "g.glsl" "#ifndef GUARD_G\n" 1
        ⟨[⟨"g.glsl", "GUARD_G", "#ifndef GUARD_G\n", 1, -1, 3⟩], ["GUARD_G"],
         [], [], true, false⟩ =
      (⟨[⟨"g.glsl", "GUARD_G", "#ifndef GUARD_G\n", 1, -1, 3⟩], ["GUARD_G"],
        [], [], true, false⟩, .nothing) ∧
    DispatchLine "inc/" "g.glsl" "#ifndef GUARD_G\n" 1
        ⟨[⟨"g.glsl", "GUARD_G", "#ifndef GUARD_G\n", 1, 2, 4⟩], ["GUARD_G"],
         [], [], true, false⟩ =
      (⟨[⟨"g.glsl", "GUARD_G", "#ifndef GUARD_G\n", 1, 2, 4⟩], ["GUARD_G"],
        [], [], true, true⟩, .nothing) :=
  ⟨(C4_ifndef_guard.1 "inc/" "g.glsl" "#ifndef GUARD_G\n" 1
      ⟨[⟨"g.glsl", "GUARD_G", "#ifndef GUARD_G\n", 1, -1, 3⟩], ["GUARD_G"],
       [], [], true, false⟩
      (by decide) (by decide) (by decide) (by decide)),
   (C4_ifndef_guard.2.1 "inc/" "g.glsl" "#ifndef GUARD_G\n" 1
      ⟨[⟨"g.glsl", "GUARD_G", "#ifndef GUARD_G\n", 1, 2, 4⟩], ["GUARD_G"],
       [], [], true, false⟩
      ⟨"g.glsl", "GUARD_G", "#ifndef GUARD_G\n", 1, 2, 4⟩
      (by decide) (by decide) (by decide) (by decide) (by decide) (by decide))⟩

/-- **C6.**  `#endif` handling.  If skipping is true, the flag is cleared
and every `IncludeGuard` record is left unchanged (first conjunct).
Otherwise, if some guard is still open, the current line number is recorded
as the closing line of the most recently opened guard whose closing line is
unset, all other records unchanged (second conjunct).  If skipping is false
and no guard is open, the fatal structural-mismatch error referencing the
offending line and line number is raised (third conjunct). -/
theorem C6_endif_handling :
    (∀ (incDir fp line : String) (n : Nat) (st : ParsedShaderData),
      firstToken line = "#endif" →
      st._processingExistingInclude = true →
      DispatchLine incDir fp line n st =
        ({st with _processingExistingInclude := false}, .nothing)) ∧
    (∀ (incDir fp line : String) (n : Nat) (st : ParsedShaderData) (k : Nat)
      (hk : k < st._includeGuards.length),
      firstToken line = "#endif" →
      st._processingExistingInclude = false →
      (st._includeGuards.get ⟨k, hk⟩)._endifLineNumber = -1 →
      (∀ j (hj : j < st._includeGuards.length), k < j →
        (st._includeGuards.get ⟨j, hj⟩)._endifLineNumber ≠ -1) →
      DispatchLine incDir fp line n st =
        ({st with _includeGuards := st._includeGuards.set k {st._includeGuards.get ⟨k, hk⟩ with _endifLineNumber := (n : Int)}},
         .nothing)) ∧
    (∀ (incDir fp line : String) (n : Nat) (st : ParsedShaderData),
      firstToken line = "#endif" →
      st._processingExistingInclude = false →
      (∀ g ∈ st._includeGuards, g._endifLineNumber ≠ -1) →
      DispatchLine incDir fp line n st =
        (st, .err (.formatted fp line (toString n)
          "#endif pre-processor directive without preexisting #if / #ifndef directive." 0))) := by
  refine ⟨fun incDir fp line n st htok hskip =>
      dispatch_endif_skipping incDir fp line n st htok hskip, ?_, ?_⟩
  · intro incDir fp line n st k hk htok hskip hopen hlast
    rw [dispatch_endif_not_skipping incDir fp line n st htok hskip]
    rw [setEndifFromBack_set st._includeGuards n k hk hopen hlast]
  · intro incDir fp line n st htok hskip hclosed
    rw [dispatch_endif_not_skipping incDir fp line n st htok hskip]
    rw [(setEndifFromBack_none_iff st._includeGuards n).mpr hclosed]

/-- **C6, witness.**  The three `#endif` behaviors at concrete states: a
skipping state keeps its guard record untouched; a non-skipping state with
an open guard records line 7 as its closing line; a non-skipping state with
only closed guards raises the structural-mismatch error. -/
theorem C6_witness :
    DispatchLine "inc/" "f" "#endif\n" 7
        ⟨[⟨"f", "A", "#ifndef A\n", 1, -1, 3⟩], ["A"], [], [], true, true⟩ =
      (⟨[⟨"f", "A", "#ifndef A\n", 1, -1, 3⟩], ["A"], [], [], true, false⟩, .nothing) ∧
    DispatchLine "inc/" "f" "#endif\n" 7
        ⟨[⟨"f", "A", "#ifndef A\n", 1, -1, -1⟩], ["A"], [], [], true, false⟩ =
      (⟨[⟨"f", "A", "#ifndef A\n", 1, -1, 7⟩], ["A"], [], [], true, false⟩, .nothing) ∧
    DispatchLine "inc/" "f" "#endif\n" 7
        ⟨[⟨"f", "A", "#ifndef A\n", 1, -1, 3⟩], ["A"], [], [], true, false⟩ =
      (⟨[⟨"f", "A", "#ifndef A\n", 1, -1, 3⟩], ["A"], [], [], true, false⟩,
       .err (.formatted "f" "#endif\n" (toString 7)
         "#endif pre-processor directive without preexisting #if / #ifndef directive." 0)) := by
  refine ⟨?_, ?_, ?_⟩
  · exact C6_endif_handling.1 "inc/" "f" "#endif\n" 7
      ⟨[⟨"f", "A", "#ifndef A\n", 1, -1, 3⟩], ["A"], [], [], true, true⟩
      (by decide) (by decide)
  · have h := C6_endif_handling.2.1 "inc/" "f" "#endif\n" 7
      ⟨[⟨"f", "A", "#ifndef A\n", 1, -1, -1⟩], ["A"], [], [], true, false⟩ 0
      (by decide) (by decide) (by decide) (by decide)
      (fun j hj hlt => by simp at hj; omega)
    exact h.trans (by decide)
  · exact C6_endif_handling.2.2 "inc/" "f" "#endif\n" 7
      ⟨[⟨"f", "A", "#ifndef A\n", 1, -1, 3⟩], ["A"], [], [], true, false⟩
      (by decide) (by decide) (by decide)

/-- The validation loop reports the first guard in appended order whose
closing line is still unset, with file, source line text and line number
taken from that guard's own record. -/
theorem validate_first_open (gs1 : List IncludeGuard) (g : IncludeGuard)
    (gs2 : List IncludeGuard)
    (hclosed : ∀ g2 ∈ gs1, g2._endifLineNumber ≠ -1)
    (hopen : g._endifLineNumber = -1) :
    ValidateIncludeGuardScope (gs1 ++ g :: gs2) =
      .error (.formatted g._includeGuardFile g._includeGuardLine
        (toString g._includeGuardLineNumber) "Unterminated #ifndef directive." 0) := by
  induction gs1 with
  | nil => simp [ValidateIncludeGuardScope, hopen]
  | cons g2 rest ih =>
    have hg2 : g2._endifLineNumber ≠ -1 := hclosed g2 (List.mem_cons_self g2 rest)
    simp only [List.cons_append]
    unfold ValidateIncludeGuardScope
    rw [if_neg hg2]
    exact ih (fun x hx => hclosed x (List.mem_cons_of_mem g2 hx))

/-- **C7.**  When, after the top-level unit has been fully consumed, some
`IncludeGuard`'s closing line is still unset, the end-of-session validation
raises an unterminated-guard error whose reported file, source line text
and line number all come from that guard's own opening record (the first
such guard in appended order), not from the end-of-file position. -/
theorem C7_unterminated_guard (incDir : String) (fs : List (String × String))
    (fuel : Nat) (filePath out : String) (st : ParsedShaderData)
    (gs1 gs2 : List IncludeGuard) (g : IncludeGuard)
    (hrun : ReadFile incDir fs fuel initialParseData filePath = .ok (st, out))
    (hguards : st._includeGuards = gs1 ++ g :: gs2)
    (hclosed : ∀ g2 ∈ gs1, g2._endifLineNumber ≠ -1)
    (hopen : g._endifLineNumber = -1) :
    GetShaderSource incDir fs fuel filePath =
      .error (.formatted g._includeGuardFile g._includeGuardLine
        (toString g._includeGuardLineNumber) "Unterminated #ifndef directive." 0) := by
  unfold GetShaderSource
  rw [hrun]
  dsimp only
  rw [hguards, validate_first_open gs1 g gs2 hclosed hopen]

/-- **C7, witness.**  A unit that opens `#ifndef A_H` on line 2 and never
closes it: the pipeline reports the error with file `m`, the opening line
text `#ifndef A_H` and line number 2, although the problem is only detected
after line 3 (end of file). -/
theorem C7_witness :
    GetShaderSource "i/" [("m", "#version 460\n#ifndef A_H\nbody")] 9 "m" =
      .error (.formatted "m" "#ifndef A_H\n" (toString (2 : Int))
        "Unterminated #ifndef directive." 0) :=
  C7_unterminated_guard "i/" [("m", "#version 460\n#ifndef A_H\nbody")] 9 "m"
    "#version 460\n\nbody\n\n"
    ⟨[⟨"m", "A_H", "#ifndef A_H\n", 2, -1, -1⟩], ["A_H"], [], [], true, false⟩
    [] [] ⟨"m", "A_H", "#ifndef A_H\n", 2, -1, -1⟩
    (by decide) (by decide) (by decide) (by decide)

/-- **C8, counterexample.**  The claim says the post-processor preserves the
presence of a leading newline.  On input `"\nabc"` (with the strip flag
clear) `Shader::EraseNewlines` *deletes* the leading newline: the loop's
`if (line.front() == '\n') line.erase(line.begin());` removes every leading
newline outright. -/
theorem C8_counterexample :
    EraseNewlines "\nabc" false = some "abc" ∧ "abc" ≠ "\nabc" := by
  constructor
  · rw [show EraseNewlines "\nabc" false = some (EraseNewlinesCore "\nabc") from rfl]
    rw [EraseNewlinesCore_eq]
    decide
  · decide

/-- **C8, amended.**  For every input string, `Shader::EraseNewlines` first
deletes every leading newline, then collapses every run of two or more
consecutive newlines into exactly one (first conjunct: the loop equals the
reference recursion `collapseNL` after `dropWhile`; the remaining conjuncts:
the result has no two adjacent newlines, leaves all non-newline characters
unchanged and in order, and does not start with a newline).  When the
caller-controlled flag is set, a single trailing newline is stripped —
except that on a result that collapsed to the empty string the C++ reads
`line.back()` out of bounds, modeled as `none`. -/
theorem C8_newline_postprocess (s : String) (b : Bool) :
    (EraseNewlines s b =
      (let t := collapseNL (s.data.dropWhile (fun c => decide (c = '\n'))) false
       if b then
         match t.getLast? with
         | none => none
         | some c => if c = '\n' then some (String.mk t.dropLast) else some (String.mk t)
       else some (String.mk t))) ∧
    noNN (collapseNL (s.data.dropWhile (fun c => decide (c = '\n'))) false) ∧
    (collapseNL (s.data.dropWhile (fun c => decide (c = '\n'))) false).filter
        (fun c => !(c == '\n')) = s.data.filter (fun c => !(c == '\n')) ∧
    (collapseNL (s.data.dropWhile (fun c => decide (c = '\n'))) false).head? ≠ some '\n' := by
  refine ⟨?_, noNN_collapseNL _ _, ?_, ?_⟩
  · unfold EraseNewlines
    rw [EraseNewlinesCore_eq]
  · rw [collapseNL_filter, dropWhile_nl_filter]
  · rw [collapseNL_false_head]
    exact dropWhile_nl_head _

/-- **C10.**  The Line Reader appends a newline before stripping comments,
which bounds the `//` scan; but the `/*` scan searches for a closing `*/`
and, when the line contains none, runs past the end of the buffer —
`line[commentEnd]` is evaluated at indices beyond `size()`, undefined
behavior modeled as `none` (first conjunct, on the line `/*x`).  A
`//` comment on the same kind of line stays in bounds thanks to the
appended newline (second conjunct). -/
theorem C10_comment_scan_bounds :
    GetLine "/*x" = none ∧ GetLine "//x" = some "\n" := by
  constructor <;> simp +decide [GetLine, EraseComments, ecAux, findNl, findStarSlash]


/-- **C9.**  Flattening a unit with zero directives produces the empty
string (pre-version plain lines are dropped and nothing else emits), and
applying the newline-collapsing post-processor a second time (with the same
trailing-newline flag, composed through `Option.bind` since the processor
can fail) yields exactly the result of applying it once. -/
theorem C9_postprocess_idempotent (incDir : String) (fs : List (String × String))
    (fuel : Nat) (path content : String) (b : Bool)
    (hfs : lookupFS fs path = some content)
    (hnd : ∀ raw ∈ splitLines content,
      ∃ cl, GetLine raw = some cl ∧ firstToken cl ∉ directiveTokens) :
    ReadFile incDir fs (fuel+1) initialParseData path = .ok (initialParseData, "") ∧
    (EraseNewlines "" b).bind (fun t => EraseNewlines t b) = EraseNewlines "" b := by
  constructor
  · rw [ReadFile]
    rw [hfs]
    exact loop_no_directives incDir fs _ path (splitLines content) 1 initialParseData
      rfl rfl hnd
  · cases b with
    | false =>
      have h1 : EraseNewlines "" false = some "" := by
        rw [show EraseNewlines "" false = some (EraseNewlinesCore "") from rfl,
          EraseNewlinesCore_eq]
        decide
      simp [h1]
    | true =>
      have h1 : EraseNewlines "" true = none := by
        unfold EraseNewlines
        rw [EraseNewlinesCore_eq]
        decide
      simp [h1]

/-- **C9, witness.**  A two-line directive-free unit flattens to the empty
string, on which the post-processor is idempotent (flag set). -/
theorem C9_witness :
    ReadFile "i/" [("m", "x\ny")] 9 initialParseData "m" = .ok (initialParseData, "") ∧
    (EraseNewlines "" true).bind (fun t => EraseNewlines t true) = EraseNewlines "" true :=
  C9_postprocess_idempotent "i/" [("m", "x\ny")] 8 "m" "x\ny" true (by decide)
    (by
      intro raw hr
      simp [splitLines, splitLA] at hr
      rcases hr with h | h
      · subst h; exact ⟨"x\n", by decide, by decide⟩
      · subst h; exact ⟨"y\n", by decide, by decide⟩)

/-- **C3, witness.**  The amended `#define` behavior at the concrete line
`#define PI 3`: with a version accepted the emission is `#define PI\n`;
without, the ordering error. -/
theorem C3_witness :
    DispatchLine "inc/" "f" "#define PI 3\n" 5 ⟨[], [], [], [], true, false⟩ =
      (⟨[], [], [], [], true, false⟩, .emit ("#define" ++ " " ++ secondToken "#define PI 3\n" ++ "\n")) ∧
    DispatchLine "inc/" "f" "#define PI 3\n" 5 ⟨[], [], [], [], false, false⟩ =
      (⟨[], [], [], [], false, false⟩, .err (.formatted "f" "#define PI 3\n" (toString 5)
        "Version directive must be first statement and may not be repeated." 0)) :=
  ⟨C3_define_emission.1 "inc/" "f" "#define PI 3\n" 5 ⟨[], [], [], [], true, false⟩
      (by decide) (by decide) (by decide) (by decide) (by decide),
   C3_define_emission.2 "inc/" "f" "#define PI 3\n" 5 ⟨[], [], [], [], false, false⟩
      (by decide) (by decide) (by decide) (by decide) (by decide)⟩

/-- **C5.**  Exactly one `#version` line survives in the flattened output,
no matter how many `#version` lines the unit and its includes contain:
(1) a successful `ReadFile` run starting with the acceptance flag unset
produces output whose `#version`-line count is 1 exactly when the final
flag is set (and 0 otherwise, and the flag only flips at a version line);
(2) the first `#version` encountered is emitted verbatim (the line plus the
appended `std::endl`) and sets the flag; (3) every subsequent `#version`
line is silently dropped: state unchanged, nothing emitted, no error. -/
theorem C5_version_uniqueness (incDir fp line : String)
    (fs : List (String × String)) (fuel n : Nat)
    (st st2 st3 : ParsedShaderData) (out : String) :
    (st._hasVersionInformation = false →
      ReadFile incDir fs fuel st fp = .ok (st2, out) →
      vcount out = (if st2._hasVersionInformation then 1 else 0)) ∧
    (st3._hasVersionInformation = false → firstToken line = "#version" →
      DispatchLine incDir fp line n st3 =
        ({st3 with _hasVersionInformation := true}, .emit (line ++ "\n"))) ∧
    (st3._hasVersionInformation = true → firstToken line = "#version" →
      DispatchLine incDir fp line n st3 = (st3, .nothing)) := by
  refine ⟨?_, ?_, ?_⟩
  · intro hv h
    have := (file_hV incDir fs fuel st fp st2 out h).1
    rw [hv] at this
    simpa using this
  · intro hv htok
    exact dispatch_version_emit incDir fp line n st3 htok hv
  · intro hv htok
    exact dispatch_version_drop incDir fp line n st3 htok hv

/-- Witness for C5 on a unit declaring two `#version` lines: the flattened
output keeps only the first, and the two dispatch equations hold at line 2. -/
theorem C5_witness :
    vcount "#version 460\n\nbody\n\n" = 1 ∧
    DispatchLine "i/" "m" "#version 450\n" 2 initialParseData =
      ({initialParseData with _hasVersionInformation := true},
        .emit ("#version 450\n" ++ "\n")) ∧
    DispatchLine "i/" "m" "#version 450\n" 2
        {initialParseData with _hasVersionInformation := true} =
      ({initialParseData with _hasVersionInformation := true}, .nothing) := by
  have h := C5_version_uniqueness "i/" "m" "#version 450\n"
    [("m", "#version 460\n#version 450\nbody")] 9 2 initialParseData
    {initialParseData with _hasVersionInformation := true} initialParseData
    "#version 460\n\nbody\n\n"
  have h2 := C5_version_uniqueness "i/" "m" "#version 450\n"
    [("m", "#version 460\n#version 450\nbody")] 9 2 initialParseData
    {initialParseData with _hasVersionInformation := true}
    {initialParseData with _hasVersionInformation := true}
    "#version 460\n\nbody\n\n"
  refine ⟨?_, h.2.1 rfl (by decide), h2.2.2 rfl (by decide)⟩
  have := h.1 rfl (by decide)
  simpa using this

end GLSL
